import Mathlib

/-!
Verification development for the Spotifly playback-queue core
(`src/rust/src/lib.rs`).  The Rust code keeps its state in process-wide
statics (QUEUE, CURRENT_INDEX, POSITION_MS, POSITION_TIMESTAMP_MS,
IS_PLAYING, PLAYER, SESSION, MIXER, PLAYER_EVENT_TX, SPIRC,
BITRATE_SETTING, GAPLESS_SETTING); here that state is an explicit `St`
record and every `spotifly_*` entry point is a pure function from `St`
(plus its inputs and the responses of the external collaborators) to a
result, a new state, and the list of commands sent to the streaming
engine.  Machine integers are modelled as `Nat` with explicit saturation
where the Rust code saturates (`saturating_sub` / `saturating_add`).
-/

namespace Spotifly

/-- Structure mirroring the Rust `QueueItem` struct (lib.rs lines 66-76). -/
structure QueueItem where
  uri : String
  track_name : String
  artist_name : String
  album_art_url : String
  duration_ms : Nat
  album_id : Option String
  artist_id : Option String
  external_url : Option String
deriving DecidableEq, Repr

/-- Modelled from the spec: the canonical identifier kinds handled by the
Command Surface (librespot's `SpotifyUri` is an external collaborator whose
source is not part of this repository).  Only the four kinds the code
dispatches on are distinguished; every other identifier fails to parse. -/
inductive SUri where
  | track (id : String)
  | album (id : String)
  | playlist (id : String)
  | artist (id : String)
deriving DecidableEq, Repr

/-- Splits `x` onto the head group of an already-split list (helper for
`splitOnChar`). -/
def consHead (x : Char) : List (List Char) → List (List Char)
  | [] => [[x]]
  | g :: gs => (x :: g) :: gs

/-- Splitting a character list at every occurrence of `c`, mirroring Rust's
`str::split(c)` (which also yields empty pieces). -/
def splitOnChar (c : Char) : List Char → List (List Char)
  | [] => [[]]
  | x :: xs => if x = c then [] :: splitOnChar c xs else consHead x (splitOnChar c xs)

/-- Suffix of `s` after the first occurrence of `marker`, mirroring Rust's
`str::find(marker)` followed by slicing past the match; `none` when the
marker does not occur. -/
def dropAfterFirst (marker : List Char) : List Char → Option (List Char)
  | [] => if marker = [] then some [] else none
  | x :: xs =>
    if marker.isPrefixOf (x :: xs) then some ((x :: xs).drop marker.length)
    else dropAfterFirst marker xs

/-- Mirror of Rust's `id[..query_pos]` slicing at the first question mark:
takes characters up to (excluding) the first occurrence of `c`. -/
def takeUntilChar (c : Char) (l : List Char) : List Char :=
  l.takeWhile (fun x => x != c)

/-- Modelled from the spec: parser for the canonical `scheme:kind:id`
identifier form.  It stands for librespot's `SpotifyUri::from_uri`, the
external collaborator wrapped by `parse_spotify_uri` (lib.rs lines
116-119); the spec (glossary, §6) describes the canonical form as
`scheme:kind:id`. -/
def parseSUri (s : String) : Option SUri :=
  match splitOnChar ':' s.data with
  | [sch, kind, idc] =>
    if sch = "spotify".data then
      if kind = "track".data then some (.track (String.mk idc))
      else if kind = "album".data then some (.album (String.mk idc))
      else if kind = "playlist".data then some (.playlist (String.mk idc))
      else if kind = "artist".data then some (.artist (String.mk idc))
      else none
    else none
  | _ => none

/-- Canonical string form of an identifier, standing for librespot's
`SpotifyUri::to_string` (used by `load_album` / `load_playlist` /
`load_artist` when they store `track_uri.to_string()` in a `QueueItem`). -/
def SUri.toUri : SUri → String
  | .track id => String.mk ("spotify:track:".data ++ id.data)
  | .album id => String.mk ("spotify:album:".data ++ id.data)
  | .playlist id => String.mk ("spotify:playlist:".data ++ id.data)
  | .artist id => String.mk ("spotify:artist:".data ++ id.data)

/-- Translation of `url_to_uri` (lib.rs lines 79-113), working on the
character list of the input string. -/
def urlToUriL (input : List Char) : List Char :=
  if ("spotify:".data).isPrefixOf input then input
  else if ("http://".data).isPrefixOf input || ("https://".data).isPrefixOf input then
    match dropAfterFirst ("open.spotify.com/".data) input with
    | some afterMarker =>
      let parts := splitOnChar '/' afterMarker
      let filtered := parts.filter (fun p => ! ("intl-".data).isPrefixOf p)
      match filtered with
      | contentType :: idPart :: _ =>
        "spotify:".data ++ contentType ++ ':' :: takeUntilChar '?' idPart
      | _ => input
    | none => input
  else input

/-- The `url_to_uri` helper (lib.rs lines 79-113): rewrites an
`open.spotify.com` web URL to the canonical `spotify:kind:id` form and
passes everything else through unchanged. -/
def url_to_uri (s : String) : String := String.mk (urlToUriL s.data)

/-- Translation of `get_external_url` (lib.rs lines 146-154): builds the
web URL for a track URI, `none` for everything else.  Note the Rust code
only checks `parts.len() == 3 && parts[1] == "track"`. -/
def get_external_url (uri : String) : Option String :=
  match splitOnChar ':' uri.data with
  | [_, kind, idc] =>
    if kind = "track".data then
      some (String.mk ("https://open.spotify.com/track/".data ++ idc))
    else none
  | _ => none

/-- Metadata returned by `Track::get` for one track (the Metadata Resolver
collaborator); the fields the Rust code copies into a `QueueItem`. -/
structure TrackMeta where
  track_name : String
  artist_name : String
  album_art_url : String
  duration_ms : Nat
  album_id : Option String
  artist_id : Option String
deriving DecidableEq, Repr, Inhabited

/-- Builds the `QueueItem` the Rust code constructs from a URI string and
the fetched track metadata (the repeated literal struct in
`spotifly_play_tracks`, `spotifly_play_track`, `spotifly_add_to_queue`,
`spotifly_add_next_to_queue` and the three `load_*` helpers). -/
def mkItem (uriStr : String) (m : TrackMeta) : QueueItem :=
  { uri := uriStr
    track_name := m.track_name
    artist_name := m.artist_name
    album_art_url := m.album_art_url
    duration_ms := m.duration_ms
    album_id := m.album_id
    artist_id := m.artist_id
    external_url := get_external_url uriStr }

/-- Largest u32 value; `spotifly_get_position_ms` uses `saturating_add` on
u32 and `spotifly_seek` takes a u32. -/
def U32_MAX : Nat := 4294967295

/-- Whole-process state: the Rust file's statics gathered into one record.
The handle statics (`PLAYER`, `SESSION`, `MIXER`, `PLAYER_EVENT_TX`,
`SPIRC`) are modelled by whether they currently hold a value. -/
structure St where
  queue : List QueueItem
  currentIndex : Nat
  positionMs : Nat
  positionTs : Nat
  isPlaying : Bool
  playerInit : Bool
  sessionInit : Bool
  mixerInit : Bool
  txInit : Bool
  spircInit : Bool
  bitrate : Nat
  gapless : Bool
deriving DecidableEq, Repr

/-- Initial state of the statics at process start (lib.rs lines 31-50):
empty queue, cursor 0, no position observation, nothing initialized,
bitrate setting 1, gapless true. -/
def initSt : St :=
  { queue := []
    currentIndex := 0
    positionMs := 0
    positionTs := 0
    isPlaying := false
    playerInit := false
    sessionInit := false
    mixerInit := false
    txInit := false
    spircInit := false
    bitrate := 1
    gapless := true }

/-- Distinguishable failure causes, one per distinct error path in the Rust
code (each corresponds to a distinct `eprintln!` message before `-1` /
null is returned). -/
inductive Err where
  | notInitialized
  | atBoundary
  | invalidIndex
  | invalidUri
  | notTrack
  | resolveFailed
  | emptyInput
  | emptyResult
  | outOfBounds
  | cacheError
  | connectError
  | mixerError
  | noBackend
deriving DecidableEq, Repr

/-- Commands issued to the external streaming engine / mixer. -/
inductive Cmd where
  | load (uri : SUri) (autoplay : Bool) (startMs : Nat)
  | play
  | pause
  | stop
  | seek (ms : Nat)
  | setVolume (v : Nat)
  | configurePlayer (bitrateKbps : Nat) (gapless : Bool)
deriving DecidableEq, Repr

/-- Result of one FFI entry point: the error (if any), the state afterwards,
and the engine commands issued. -/
structure Out where
  err : Option Err
  st : St
  cmds : List Cmd
deriving Repr

/-- Translation of `update_position` (lib.rs lines 61-64): store the
position and stamp it with the current wall-clock time. -/
def updatePosition (s : St) (posMs now : Nat) : St :=
  { s with positionMs := posMs, positionTs := now }

/-- Translation of `spotifly_get_position_ms` (lib.rs lines 852-871).
`now - ts` is u64 `saturating_sub` (Nat subtraction saturates likewise)
and the final addition is u32 `saturating_add`. -/
def spotifly_get_position_ms (s : St) (now : Nat) : Nat :=
  if s.positionTs = 0 then 0
  else if s.isPlaying then
    min (s.positionMs + min (now - s.positionTs) 5000) U32_MAX
  else s.positionMs

/-- Translation of `spotifly_is_playing` (lib.rs lines 843-846). -/
def spotifly_is_playing (s : St) : Bool := s.isPlaying

/-- Events emitted by the streaming engine (librespot `PlayerEvent`s the
ingestion loop matches on, lib.rs lines 406-448); `other` covers every
variant handled by the catch-all arm. -/
inductive PEvent where
  | playing (posMs : Nat)
  | paused (posMs : Nat)
  | positionChanged (posMs : Nat)
  | seeked (posMs : Nat)
  | stopped
  | endOfTrack
  | other
deriving DecidableEq, Repr

/-- Translation of the event-ingestion loop body (lib.rs lines 405-449):
the state change and engine commands produced by one engine event arriving
at wall-clock time `now`. -/
def onPlayerEvent (s : St) (e : PEvent) (now : Nat) : St × List Cmd :=
  match e with
  | .playing p => (updatePosition { s with isPlaying := true } p now, [])
  | .paused p => (updatePosition { s with isPlaying := false } p now, [])
  | .positionChanged p => (updatePosition s p now, [])
  | .seeked p => (updatePosition s p now, [])
  | .stopped => (updatePosition { s with isPlaying := false } 0 now, [])
  | .endOfTrack =>
    let s0 := updatePosition { s with isPlaying := false } 0 now
    if h : s.currentIndex + 1 < s.queue.length then
      let nextTrack := s.queue.get ⟨s.currentIndex + 1, h⟩
      let s1 := { s0 with currentIndex := s.currentIndex + 1 }
      match parseSUri nextTrack.uri with
      | some u => ({ s1 with isPlaying := true }, [.load u true 0])
      | none => (s1, [])
    else (s0, [])
  | .other => (s, [])

/-- Outcome of one attempted initialization, abstracting which collaborator
call inside `init_player_async` (lib.rs lines 330-506) fails: the cache,
the session connect, the mixer open, the audio-backend lookup, or none of
them (with the optional Spirc attach succeeding or not). -/
inductive InitOutcome where
  | cacheFail
  | connectFail
  | mixerFail
  | noBackend
  | ok (spircOk : Bool)
deriving DecidableEq, Repr

/-- Translation of `spotifly_init_player` / `init_player_async` (lib.rs
lines 292-328 and 330-506).  Key ordering from the source: the session is
connected first, then the mixer is opened and **stored globally** (lines
352-355), then the audio backend is looked up (line 381); player, session
and event-channel sender are stored only after that (lines 457-468), and
a Spirc failure is a warning, not an error (lines 499-502). -/
def spotifly_init_player (s : St) (o : InitOutcome) : Out :=
  if s.sessionInit then ⟨none, s, []⟩
  else
    match o with
    | .cacheFail => ⟨some .cacheError, s, []⟩
    | .connectFail => ⟨some .connectError, s, []⟩
    | .mixerFail => ⟨some .mixerError, s, []⟩
    | .noBackend => ⟨some .noBackend, { s with mixerInit := true }, []⟩
    | .ok spircOk =>
      ⟨none,
        { s with mixerInit := true, playerInit := true, sessionInit := true,
                 txInit := true, spircInit := spircOk },
        [.configurePlayer (if s.bitrate = 0 then 96 else if s.bitrate = 2 then 320 else 160)
          s.gapless]⟩

/-- Resolution loop of `spotifly_play_tracks` (lib.rs lines 564-601): each
identifier is parsed, must be a track, and its metadata fetched; the first
failure aborts the whole batch before the queue is touched. -/
def resolveAll (fetch : SUri → Option TrackMeta) : List String → Except Err (List QueueItem)
  | [] => .ok []
  | u :: rest =>
    match parseSUri u with
    | none => .error .invalidUri
    | some su =>
      match su with
      | .track id =>
        match fetch (.track id) with
        | none => .error .resolveFailed
        | some m =>
          match resolveAll fetch rest with
          | .error e => .error e
          | .ok items => .ok (mkItem u m :: items)
      | _ => .error .notTrack

/-- Translation of `spotifly_play_tracks` (lib.rs lines 514-629).  Source
ordering: empty-input check (line 539) before the player/session checks
(lines 544-562); the queue is replaced and the cursor reset only after
every identifier resolved; the first identifier is then re-parsed (line
616) before the load command. -/
def spotifly_play_tracks (s : St) (uris : List String) (fetch : SUri → Option TrackMeta) : Out :=
  if uris.isEmpty then ⟨some .emptyInput, s, []⟩
  else if ¬ s.playerInit then ⟨some .notInitialized, s, []⟩
  else if ¬ s.sessionInit then ⟨some .notInitialized, s, []⟩
  else
    match resolveAll fetch uris with
    | .error e => ⟨some e, s, []⟩
    | .ok items =>
      if items.isEmpty then ⟨some .emptyResult, s, []⟩
      else
        let s1 := { s with queue := items, currentIndex := 0 }
        match parseSUri (uris.headD "") with
        | none => ⟨some .invalidUri, s1, []⟩
        | some u => ⟨none, s1, [.load u true 0]⟩

/-- Environment for `spotifly_play_track`: the Metadata Resolver's answers.
`fetchTrack` stands for `Track::get`; `fetchColl` stands for
`load_album` / `load_playlist` / `load_artist`, which return, for each
contained track that resolved, its track id together with its metadata
(entries that fail to resolve are silently skipped by the Rust loops, so
they simply do not appear in the returned list). -/
structure PlayEnv where
  fetchTrack : SUri → Option TrackMeta
  fetchColl : SUri → Option (List (String × TrackMeta))

/-- Translation of `spotifly_play_track` (lib.rs lines 635-786): URL
normalization, player/session checks, then dispatch on the identifier
kind.  For collections the queue is replaced first and the first stored
URI is re-parsed afterwards (lines 727, 746, 765), faithfully modelled
including the possibility of that late parse failing after the queue was
already replaced.  `IS_PLAYING` is set only when the whole operation
succeeds (lines 776-779). -/
def spotifly_play_track (s : St) (input : String) (env : PlayEnv) : Out :=
  let uriStr := url_to_uri input
  if ¬ s.playerInit then ⟨some .notInitialized, s, []⟩
  else if ¬ s.sessionInit then ⟨some .notInitialized, s, []⟩
  else
    match parseSUri uriStr with
    | none => ⟨some .invalidUri, s, []⟩
    | some su =>
      match su with
      | .track id =>
        match env.fetchTrack (.track id) with
        | none => ⟨some .resolveFailed, s, []⟩
        | some m =>
          ⟨none,
            { s with queue := [mkItem uriStr m], currentIndex := 0, isPlaying := true },
            [.load (.track id) true 0]⟩
      | _ =>
        match env.fetchColl su with
        | none => ⟨some .resolveFailed, s, []⟩
        | some tracks =>
          let items := tracks.map (fun p => mkItem (SUri.toUri (.track p.1)) p.2)
          if items.isEmpty then ⟨some .emptyResult, s, []⟩
          else
            let s1 := { s with queue := items, currentIndex := 0 }
            match parseSUri ((items.headD (mkItem "" default)).uri) with
            | none => ⟨some .invalidUri, s1, []⟩
            | some fu => ⟨none, { s1 with isPlaying := true }, [.load fu true 0]⟩

/-- Translation of `spotifly_pause` (lib.rs lines 791-804). -/
def spotifly_pause (s : St) : Out :=
  if s.playerInit then ⟨none, { s with isPlaying := false }, [.pause]⟩
  else ⟨some .notInitialized, s, []⟩

/-- Translation of `spotifly_resume` (lib.rs lines 809-822). -/
def spotifly_resume (s : St) : Out :=
  if s.playerInit then ⟨none, { s with isPlaying := true }, [.play]⟩
  else ⟨some .notInitialized, s, []⟩

/-- Translation of `spotifly_stop` (lib.rs lines 827-840); note it does not
reset the position tracker itself (the `Stopped` event does that). -/
def spotifly_stop (s : St) : Out :=
  if s.playerInit then ⟨none, { s with isPlaying := false }, [.stop]⟩
  else ⟨some .notInitialized, s, []⟩

/-- Translation of `spotifly_seek` (lib.rs lines 965-978): forwards to the
engine without touching the position tracker. -/
def spotifly_seek (s : St) (ms : Nat) : Out :=
  if s.playerInit then ⟨none, s, [.seek ms]⟩
  else ⟨some .notInitialized, s, []⟩

/-- Translation of `spotifly_next` (lib.rs lines 876-916).  Source
ordering: boundary check, clone of the next item, `CURRENT_INDEX` store
(line 889) **before** the player check (lines 891-898) and the URI parse,
so those later failures leave the cursor already advanced. -/
def spotifly_next (s : St) : Out :=
  if h : s.currentIndex + 1 < s.queue.length then
    let nextTrack := s.queue.get ⟨s.currentIndex + 1, h⟩
    let s1 := { s with currentIndex := s.currentIndex + 1 }
    if ¬ s.playerInit then ⟨some .notInitialized, s1, []⟩
    else
      match parseSUri nextTrack.uri with
      | none => ⟨some .invalidUri, s1, []⟩
      | some u => ⟨none, { s1 with isPlaying := true }, [.load u true 0]⟩
  else ⟨some .atBoundary, s, []⟩

/-- Translation of `spotifly_previous` (lib.rs lines 921-960).  Source
ordering: zero check, indexing `queue[current-1]` (which would panic out
of bounds, modelled as `outOfBounds`), `CURRENT_INDEX` store (line 933)
**before** the player check and the URI parse. -/
def spotifly_previous (s : St) : Out :=
  if s.currentIndex = 0 then ⟨some .atBoundary, s, []⟩
  else
    match s.queue[s.currentIndex - 1]? with
    | none => ⟨some .outOfBounds, s, []⟩
    | some prevTrack =>
      let s1 := { s with currentIndex := s.currentIndex - 1 }
      if ¬ s.playerInit then ⟨some .notInitialized, s1, []⟩
      else
        match parseSUri prevTrack.uri with
        | none => ⟨some .invalidUri, s1, []⟩
        | some u => ⟨none, { s1 with isPlaying := true }, [.load u true 0]⟩

/-- Translation of `spotifly_jump_to_index` (lib.rs lines 983-1022).
Source ordering: bounds check, `CURRENT_INDEX` store (line 995) **before**
the player check (lines 997-1004) and the URI parse. -/
def spotifly_jump_to_index (s : St) (index : Nat) : Out :=
  if h : index < s.queue.length then
    let target := s.queue.get ⟨index, h⟩
    let s1 := { s with currentIndex := index }
    if ¬ s.playerInit then ⟨some .notInitialized, s1, []⟩
    else
      match parseSUri target.uri with
      | none => ⟨some .invalidUri, s1, []⟩
      | some u => ⟨none, { s1 with isPlaying := true }, [.load u true 0]⟩
  else ⟨some .invalidIndex, s, []⟩

/-- Translation of `spotifly_get_queue_length` (lib.rs lines 1026-1029). -/
def spotifly_get_queue_length (s : St) : Nat := s.queue.length

/-- Translation of `spotifly_get_current_index` (lib.rs lines 1033-1035). -/
def spotifly_get_current_index (s : St) : Nat := s.currentIndex

/-- Translation of `spotifly_add_to_queue` (lib.rs lines 1197-1272):
session check, parse, track-only, fetch, then push to the end. -/
def spotifly_add_to_queue (s : St) (uriStr : String) (fetch : SUri → Option TrackMeta) : Out :=
  if ¬ s.sessionInit then ⟨some .notInitialized, s, []⟩
  else
    match parseSUri uriStr with
    | none => ⟨some .invalidUri, s, []⟩
    | some (.track id) =>
      match fetch (.track id) with
      | none => ⟨some .resolveFailed, s, []⟩
      | some m => ⟨none, { s with queue := s.queue ++ [mkItem uriStr m] }, []⟩
    | some _ => ⟨some .notTrack, s, []⟩

/-- Translation of `spotifly_add_next_to_queue` (lib.rs lines 1278-1362):
like `spotifly_add_to_queue` but inserting at index 0 when the queue is
empty and at `min(current_index + 1, length)` otherwise (lines 1334-1344). -/
def spotifly_add_next_to_queue (s : St) (uriStr : String) (fetch : SUri → Option TrackMeta) : Out :=
  if ¬ s.sessionInit then ⟨some .notInitialized, s, []⟩
  else
    match parseSUri uriStr with
    | none => ⟨some .invalidUri, s, []⟩
    | some (.track id) =>
      match fetch (.track id) with
      | none => ⟨some .resolveFailed, s, []⟩
      | some m =>
        let pos := if s.queue.isEmpty then 0 else min (s.currentIndex + 1) s.queue.length
        ⟨none, { s with queue := s.queue.insertIdx pos (mkItem uriStr m) }, []⟩
    | some _ => ⟨some .notTrack, s, []⟩

/-- Translation of `spotifly_remove_from_queue` (lib.rs lines 1368-1385):
fails unless `current_index < index < length`, otherwise removes the
element at `index`. -/
def spotifly_remove_from_queue (s : St) (index : Nat) : Out :=
  if index ≤ s.currentIndex ∨ s.queue.length ≤ index then ⟨some .invalidIndex, s, []⟩
  else ⟨none, { s with queue := s.queue.eraseIdx index }, []⟩

/-- Translation of `spotifly_move_queue_item` (lib.rs lines 1391-1418):
fails unless both indices satisfy `current_index < idx < length`; equal
indices are a successful no-op; otherwise `Vec::remove(from)` followed by
`Vec::insert(to, item)`. -/
def spotifly_move_queue_item (s : St) (fromIdx toIdx : Nat) : Out :=
  if hbad : fromIdx ≤ s.currentIndex ∨ toIdx ≤ s.currentIndex ∨
      s.queue.length ≤ fromIdx ∨ s.queue.length ≤ toIdx then
    ⟨some .invalidIndex, s, []⟩
  else if fromIdx = toIdx then ⟨none, s, []⟩
  else
    let item := s.queue.get ⟨fromIdx, by omega⟩
    ⟨none, { s with queue := (s.queue.eraseIdx fromIdx).insertIdx toIdx item }, []⟩

/-- Translation of `spotifly_clear_upcoming_queue` (lib.rs lines
1424-1433): truncates the queue to `current_index + 1` when there is
anything after the cursor; always succeeds. -/
def spotifly_clear_upcoming_queue (s : St) : Out :=
  if s.currentIndex + 1 < s.queue.length then
    ⟨none, { s with queue := s.queue.take (s.currentIndex + 1) }, []⟩
  else ⟨none, s, []⟩

/-- Translation of `spotifly_set_volume` (lib.rs lines 1527-1539): needs
only the mixer handle. -/
def spotifly_set_volume (s : St) (v : Nat) : Out :=
  if s.mixerInit then ⟨none, s, [.setVolume v]⟩
  else ⟨some .notInitialized, s, []⟩

/-- Translation of `spotifly_set_bitrate` (lib.rs lines 1545-1552): clamps
the input byte to at most 2 and stores it. -/
def spotifly_set_bitrate (s : St) (v : Nat) : St :=
  { s with bitrate := min v 2 }

/-- Translation of `spotifly_get_bitrate` (lib.rs lines 1557-1559). -/
def spotifly_get_bitrate (s : St) : Nat := s.bitrate

/-- Translation of the bitrate mapping inside `init_player_async` (lib.rs
lines 358-371): stored setting 0 selects 96 kbps, 2 selects 320 kbps, and
anything else 160 kbps. -/
def bitrateKbps (setting : Nat) : Nat :=
  if setting = 0 then 96 else if setting = 2 then 320 else 160

/-- Translation of `spotifly_set_gapless` (lib.rs lines 1564-1569). -/
def spotifly_set_gapless (s : St) (b : Bool) : St :=
  { s with gapless := b }

/-- Translation of `spotifly_get_gapless` (lib.rs lines 1573-1575). -/
def spotifly_get_gapless (s : St) : Bool := s.gapless

/-- Queue invariant exactly as the spec's data model states it (§3): the
cursor is 0 when the sequence is empty, and strictly below the length when
it is not. -/
def SpecInv (s : St) : Prop :=
  (s.queue = [] → s.currentIndex = 0) ∧ (s.queue ≠ [] → s.currentIndex < s.queue.length)

instance (s : St) : Decidable (SpecInv s) := by unfold SpecInv; exact inferInstance

/-- Every URI stored in the queue parses as a canonical identifier.  This
holds in every reachable state because each insertion path parses the URI
(or builds it from a parsed one) before storing it. -/
def ValidUris (s : St) : Prop := ∀ it ∈ s.queue, (parseSUri it.uri).isSome = true

instance (s : St) : Decidable (ValidUris s) := by
  unfold ValidUris; exact List.decidableBAll _ _

/-- Inductive system invariant: the spec's queue invariant, plus the facts
that a session handle implies a player handle (they are stored together by
`init_player_async`), that a non-empty queue implies a live player (every
queue-inserting entry point checks the player or the session first), and
that every stored URI parses. -/
def SysInv (s : St) : Prop :=
  SpecInv s ∧ (s.sessionInit = true → s.playerInit = true) ∧
    (s.queue ≠ [] → s.playerInit = true) ∧ ValidUris s

instance (s : St) : Decidable (SysInv s) := by unfold SysInv; exact inferInstance

/-- Well-formed opaque identifier: contains no colon, so that the canonical
`spotify:kind:id` string round-trips through the parser.  librespot ids
are base62 strings, which satisfy this. -/
def wfId (id : String) : Prop := ':' ∉ id.data

instance (id : String) : Decidable (wfId id) := by unfold wfId; exact inferInstance

/-- Well-formed resolver environment: collection resolution only returns
well-formed track ids (librespot's `SpotifyUri` ids are base62). -/
def WfEnv (env : PlayEnv) : Prop :=
  ∀ su l, env.fetchColl su = some l → ∀ p ∈ l, wfId p.1

/-- An identifier string resolves as a track: it parses as a track URI and
the Metadata Resolver returns metadata for it. -/
def resolvesTrack (fetch : SUri → Option TrackMeta) (u : String) : Prop :=
  ∃ id, parseSUri u = some (.track id) ∧ (fetch (.track id)).isSome = true

/-- Position payload of an engine event (0 for events without one); engine
events carry u32 positions. -/
def eventPos : PEvent → Nat
  | .playing p => p
  | .paused p => p
  | .positionChanged p => p
  | .seeked p => p
  | _ => 0

/-- States reachable through the FFI surface from process start, with the
external collaborators answering arbitrarily (each step carries its own
resolver responses; collection resolution is constrained to well-formed
ids, and engine positions fit in u32). -/
inductive Reach : St → Prop where
  | base : Reach initSt
  | initPlayer {s} (h : Reach s) (o : InitOutcome) : Reach (spotifly_init_player s o).st
  | playTracks {s} (h : Reach s) (uris : List String) (fetch : SUri → Option TrackMeta) :
      Reach (spotifly_play_tracks s uris fetch).st
  | playTrack {s} (h : Reach s) (input : String) (env : PlayEnv) (hw : WfEnv env) :
      Reach (spotifly_play_track s input env).st
  | pauseOp {s} (h : Reach s) : Reach (spotifly_pause s).st
  | resumeOp {s} (h : Reach s) : Reach (spotifly_resume s).st
  | stopOp {s} (h : Reach s) : Reach (spotifly_stop s).st
  | seekOp {s} (h : Reach s) (ms : Nat) : Reach (spotifly_seek s ms).st
  | nextOp {s} (h : Reach s) : Reach (spotifly_next s).st
  | previousOp {s} (h : Reach s) : Reach (spotifly_previous s).st
  | jumpOp {s} (h : Reach s) (i : Nat) : Reach (spotifly_jump_to_index s i).st
  | addOp {s} (h : Reach s) (u : String) (fetch : SUri → Option TrackMeta) :
      Reach (spotifly_add_to_queue s u fetch).st
  | addNextOp {s} (h : Reach s) (u : String) (fetch : SUri → Option TrackMeta) :
      Reach (spotifly_add_next_to_queue s u fetch).st
  | removeOp {s} (h : Reach s) (i : Nat) : Reach (spotifly_remove_from_queue s i).st
  | moveOp {s} (h : Reach s) (i j : Nat) : Reach (spotifly_move_queue_item s i j).st
  | clearOp {s} (h : Reach s) : Reach (spotifly_clear_upcoming_queue s).st
  | setVolumeOp {s} (h : Reach s) (v : Nat) : Reach (spotifly_set_volume s v).st
  | eventOp {s} (h : Reach s) (e : PEvent) (now : Nat) (hp : eventPos e ≤ U32_MAX) :
      Reach (onPlayerEvent s e now).1
  | setBitrateOp {s} (h : Reach s) (v : Nat) : Reach (spotifly_set_bitrate s v)
  | setGaplessOp {s} (h : Reach s) (b : Bool) : Reach (spotifly_set_gapless s b)

/-- Good path segment for URL rewriting: contains no slash and does not
carry the `intl-` locale marker. -/
def goodSeg (k : String) : Prop :=
  '/' ∉ k.data ∧ ("intl-".data).isPrefixOf k.data = false

instance (k : String) : Decidable (goodSeg k) := by unfold goodSeg; exact inferInstance

/-- Demo metadata used by concrete witness states. -/
def demoMeta : TrackMeta :=
  { track_name := "Song"
    artist_name := "Band"
    album_art_url := ""
    duration_ms := 180000
    album_id := none
    artist_id := none }

/-- Demo queue items with parsing URIs. -/
def demoItemA : QueueItem := mkItem "spotify:track:aa" demoMeta

/-- Second demo queue item. -/
def demoItemB : QueueItem := mkItem "spotify:track:bb" demoMeta

/-- Concrete initialized state with a two-track queue, used by witnesses. -/
def demoReadySt : St :=
  { initSt with queue := [demoItemA, demoItemB], currentIndex := 0,
                playerInit := true, sessionInit := true, mixerInit := true, txInit := true }

/-- The state reached by a successful initialization from process start. -/
def readySt : St := (spotifly_init_player initSt (.ok true)).st

/-- Resolver that answers `demoMeta` for every track. -/
def demoFetch : SUri → Option TrackMeta := fun _ => some demoMeta

/-- The reachable state after initializing and then playing two tracks. -/
def twoTrackSt : St :=
  (spotifly_play_tracks readySt ["spotify:track:aa", "spotify:track:bb"] demoFetch).st

theorem resolveAll_ok_length {fetch : SUri → Option TrackMeta} :
    ∀ {uris : List String} {items : List QueueItem},
      resolveAll fetch uris = .ok items → items.length = uris.length := by
  intro uris
  induction uris with
  | nil => intro items h; simp [resolveAll] at h; simp [← h]
  | cons u rest ih =>
    intro items h
    simp only [resolveAll] at h
    split at h
    · exact absurd h (by simp)
    · rename_i su hsu
      split at h
      · rename_i id
        split at h
        · exact absurd h (by simp)
        · split at h
          · exact absurd h (by simp)
          · rename_i items0 hitems0
            simp only [Except.ok.injEq] at h
            subst h
            simp [ih hitems0]
      · exact absurd h (by simp)

theorem resolveAll_ok_valid {fetch : SUri → Option TrackMeta} :
    ∀ {uris : List String} {items : List QueueItem},
      resolveAll fetch uris = .ok items →
      ∀ it ∈ items, (parseSUri it.uri).isSome = true := by
  intro uris
  induction uris with
  | nil =>
    intro items h
    simp only [resolveAll, Except.ok.injEq] at h
    subst h
    intro it hit
    exact absurd hit (by simp)
  | cons u rest ih =>
    intro items h
    simp only [resolveAll] at h
    split at h
    · exact absurd h (by simp)
    · rename_i su hsu
      split at h
      · rename_i id
        split at h
        · exact absurd h (by simp)
        · split at h
          · exact absurd h (by simp)
          · rename_i items0 hitems0
            simp only [Except.ok.injEq] at h
            subst h
            intro it hit
            rcases List.mem_cons.mp hit with hh | ht
            · subst hh; simp [mkItem, hsu]
            · exact ih hitems0 it ht
      · exact absurd h (by simp)

theorem resolveAll_cons_ok {fetch : SUri → Option TrackMeta} {u : String}
    {rest : List String} {items : List QueueItem}
    (h : resolveAll fetch (u :: rest) = .ok items) :
    ∃ id, parseSUri u = some (.track id) := by
  simp only [resolveAll] at h
  split at h
  · exact absurd h (by simp)
  · rename_i su hsu
    split at h
    · rename_i id
      exact ⟨id, hsu⟩
    · exact absurd h (by simp)

theorem resolveAll_error_of_bad {fetch : SUri → Option TrackMeta} :
    ∀ {uris : List String}, (∃ u ∈ uris, ¬ resolvesTrack fetch u) →
      ∃ e, resolveAll fetch uris = .error e := by
  intro uris
  induction uris with
  | nil => rintro ⟨u, hu, -⟩; exact absurd hu (by simp)
  | cons v rest ih =>
    rintro ⟨u, hu, hbad⟩
    rcases List.mem_cons.mp hu with rfl | hmem
    · cases hp : parseSUri u with
      | none => exact ⟨.invalidUri, by simp [resolveAll, hp]⟩
      | some su =>
        cases su with
        | track id =>
          cases hf : fetch (.track id) with
          | none => exact ⟨.resolveFailed, by simp [resolveAll, hp, hf]⟩
          | some m =>
            exact absurd ⟨id, hp, by simp [hf]⟩ hbad
        | album id => exact ⟨.notTrack, by simp [resolveAll, hp]⟩
        | playlist id => exact ⟨.notTrack, by simp [resolveAll, hp]⟩
        | artist id => exact ⟨.notTrack, by simp [resolveAll, hp]⟩
    · cases hp : parseSUri v with
      | none => exact ⟨.invalidUri, by simp [resolveAll, hp]⟩
      | some su =>
        cases su with
        | track id =>
          cases hf : fetch (.track id) with
          | none => exact ⟨.resolveFailed, by simp [resolveAll, hp, hf]⟩
          | some m =>
            obtain ⟨e, he⟩ := ih ⟨u, hmem, hbad⟩
            exact ⟨e, by simp [resolveAll, hp, hf, he]⟩
        | album id => exact ⟨.notTrack, by simp [resolveAll, hp]⟩
        | playlist id => exact ⟨.notTrack, by simp [resolveAll, hp]⟩
        | artist id => exact ⟨.notTrack, by simp [resolveAll, hp]⟩

theorem resolveAll_ok_of_all {fetch : SUri → Option TrackMeta} :
    ∀ {uris : List String}, (∀ u ∈ uris, resolvesTrack fetch u) →
      ∃ items, resolveAll fetch uris = .ok items := by
  intro uris
  induction uris with
  | nil => intro _; exact ⟨[], rfl⟩
  | cons v rest ih =>
    intro hall
    obtain ⟨id, hp, hf⟩ := hall v (by simp)
    obtain ⟨m, hm⟩ := Option.isSome_iff_exists.mp hf
    obtain ⟨items, hitems⟩ := ih (fun u hu => hall u (by simp [hu]))
    exact ⟨mkItem v m :: items, by simp only [resolveAll, hp, hm, hitems]⟩

theorem play_tracks_fail_unchanged {s : St} {uris : List String}
    {fetch : SUri → Option TrackMeta}
    (h : (spotifly_play_tracks s uris fetch).err ≠ none) :
    (spotifly_play_tracks s uris fetch).st = s := by
  by_cases h1 : uris.isEmpty
  · simp [spotifly_play_tracks, h1]
  · by_cases h2 : s.playerInit = true
    case neg => simp [spotifly_play_tracks, h1, h2]
    by_cases h3 : s.sessionInit = true
    case neg => simp [spotifly_play_tracks, h1, h2, h3]
    cases hres : resolveAll fetch uris with
    | error e => simp [spotifly_play_tracks, h1, h2, h3, hres]
    | ok items =>
      exfalso
      cases uris with
      | nil => simp at h1
      | cons u rest =>
        obtain ⟨id, hid⟩ := resolveAll_cons_ok hres
        have hlen := resolveAll_ok_length hres
        have hine : items.isEmpty = false := by
          cases items with
          | nil => simp at hlen
          | cons a b => rfl
        exact h (by simp [spotifly_play_tracks, h2, h3, hres, hine, hid])

theorem play_tracks_ok {s : St} {uris : List String} {fetch : SUri → Option TrackMeta}
    {items : List QueueItem}
    (hp : s.playerInit = true) (hs : s.sessionInit = true) (hne : uris ≠ [])
    (hres : resolveAll fetch uris = .ok items) :
    (spotifly_play_tracks s uris fetch).err = none ∧
    (spotifly_play_tracks s uris fetch).st = { s with queue := items, currentIndex := 0 } := by
  cases uris with
  | nil => exact absurd rfl hne
  | cons u rest =>
    obtain ⟨id, hid⟩ := resolveAll_cons_ok hres
    have hlen := resolveAll_ok_length hres
    have hine : items.isEmpty = false := by
      cases items with
      | nil => simp at hlen
      | cons a b => rfl
    constructor <;> simp [spotifly_play_tracks, hp, hs, hres, hine, hid]

theorem splitOnChar_of_not_mem {c : Char} {l : List Char} (h : c ∉ l) :
    splitOnChar c l = [l] := by
  induction l with
  | nil => rfl
  | cons x xs ih =>
    simp only [List.mem_cons, not_or] at h
    have hx : ¬ x = c := fun he => h.1 he.symm
    simp [splitOnChar, hx, ih h.2, consHead]

theorem splitOnChar_append {c : Char} {a : List Char} (b : List Char) (h : c ∉ a) :
    splitOnChar c (a ++ c :: b) = a :: splitOnChar c b := by
  induction a with
  | nil => simp [splitOnChar]
  | cons x xs ih =>
    simp only [List.mem_cons, not_or] at h
    have hx : ¬ x = c := fun he => h.1 he.symm
    simp [splitOnChar, hx, ih h.2, consHead]

theorem takeUntilChar_of_not_mem {c : Char} {l : List Char} (h : c ∉ l) :
    takeUntilChar c l = l := by
  induction l with
  | nil => rfl
  | cons x xs ih =>
    simp only [List.mem_cons, not_or] at h
    have hx : ¬ x = c := fun he => h.1 he.symm
    simp [takeUntilChar, List.takeWhile_cons, hx]
    simpa [takeUntilChar] using ih h.2

theorem takeUntilChar_append {c : Char} {a : List Char} (b : List Char) (h : c ∉ a) :
    takeUntilChar c (a ++ c :: b) = a := by
  induction a with
  | nil => simp [takeUntilChar]
  | cons x xs ih =>
    simp only [List.mem_cons, not_or] at h
    have hx : ¬ x = c := fun he => h.1 he.symm
    simp [takeUntilChar, List.takeWhile_cons, hx]
    simpa [takeUntilChar] using ih h.2

theorem isPrefixOf_append_self (m t : List Char) : m.isPrefixOf (m ++ t) = true :=
  List.isPrefixOf_iff_prefix.mpr (List.prefix_append _ _)

theorem isPrefixOf_append_cons_false {c : Char} (b : List Char) :
    ∀ {m a : List Char}, m.isPrefixOf a = false → c ∉ m →
      m.isPrefixOf (a ++ c :: b) = false := by
  intro m
  induction m with
  | nil =>
    intro a hm _
    have hnp : ([] : List Char) <+: a := ⟨a, rfl⟩
    have ht : List.isPrefixOf ([] : List Char) a = true :=
      List.isPrefixOf_iff_prefix.mpr hnp
    rw [ht] at hm
    exact absurd hm (by simp)
  | cons x xs ih =>
    intro a hm hc
    simp only [List.mem_cons, not_or] at hc
    cases a with
    | nil =>
      simp only [List.nil_append]
      have hx : (x == c) = false := by
        simp only [beq_eq_false_iff_ne, ne_eq]
        exact fun he => hc.1 he.symm
      simp [List.isPrefixOf, hx]
    | cons y ys =>
      simp only [List.cons_append]
      by_cases hxy : x = y
      · subst hxy
        have hm' : xs.isPrefixOf ys = false := by
          simpa [List.isPrefixOf] using hm
        simp [List.isPrefixOf, ih hm' hc.2]
      · have hx : (x == y) = false := by simp [beq_eq_false_iff_ne, hxy]
        simp [List.isPrefixOf, hx]

theorem dropAfterFirst_self (m t : List Char) (hne : m ≠ []) :
    dropAfterFirst m (m ++ t) = some t := by
  cases m with
  | nil => exact absurd rfl hne
  | cons x xs =>
    have hpre := isPrefixOf_append_self (x :: xs) t
    rw [List.cons_append] at hpre
    rw [List.cons_append]
    unfold dropAfterFirst
    simp only [hpre, if_true]
    rw [← List.cons_append, List.drop_left]

theorem dropAfterFirst_https (t : List Char) :
    dropAfterFirst ("open.spotify.com/".data) ("https://open.spotify.com/".data ++ t) =
      some t := by
  have h1 : dropAfterFirst ("open.spotify.com/".data) ("https://open.spotify.com/".data ++ t) =
      dropAfterFirst ("open.spotify.com/".data) ("open.spotify.com/".data ++ t) := rfl
  rw [h1, dropAfterFirst_self _ _ (by decide)]

theorem string_eq_of_data {a b : String} (h : a.data = b.data) : a = b := by
  cases a
  cases b
  exact congrArg String.mk h

theorem parseSUri_toUri_track {id : String} (h : wfId id) :
    parseSUri (SUri.toUri (.track id)) = some (.track id) := by
  have hsplit : splitOnChar ':' (SUri.toUri (.track id)).data =
      ["spotify".data, "track".data, id.data] := by
    show splitOnChar ':' ("spotify".data ++ ':' :: ("track".data ++ ':' :: id.data)) = _
    rw [splitOnChar_append _ (by decide), splitOnChar_append _ (by decide),
      splitOnChar_of_not_mem h]
  unfold parseSUri
  rw [hsplit]
  simp

theorem urlToUriL_rewrite (t kind idp : List Char) (restParts : List (List Char))
    (hsplit : (splitOnChar '/' t).filter (fun p => ! ("intl-".data).isPrefixOf p) =
      kind :: idp :: restParts) :
    urlToUriL ("https://open.spotify.com/".data ++ t) =
      "spotify:".data ++ kind ++ ':' :: takeUntilChar '?' idp := by
  unfold urlToUriL
  rw [show ("spotify:".data).isPrefixOf ("https://open.spotify.com/".data ++ t) = false
      from rfl,
    show ("http://".data).isPrefixOf ("https://open.spotify.com/".data ++ t) = false from rfl,
    show ("https://".data).isPrefixOf ("https://open.spotify.com/".data ++ t) = true from rfl]
  simp only [Bool.false_eq_true, if_false, Bool.false_or, if_true, dropAfterFirst_https t,
    hsplit]

/-- C3: `removeAt(i)` succeeds iff `current_index < i < length`; `moveItem(i,j)`
succeeds iff both indices are strictly between the cursor and the length;
failing calls leave the state unchanged, `i = j` is a successful no-op, and
a successful move relocates the single element at `i` to position `j`
(same length, the moved element sits at `j`, and erasing it at `j` undoes
exactly the erasure at `i`). -/
theorem c3_remove_move_success_conditions (s : St) (i j : Nat) :
    (((spotifly_remove_from_queue s i).err = none) ↔
      (s.currentIndex < i ∧ i < s.queue.length)) ∧
    ((spotifly_remove_from_queue s i).err ≠ none → (spotifly_remove_from_queue s i).st = s) ∧
    (((spotifly_move_queue_item s i j).err = none) ↔
      ((s.currentIndex < i ∧ i < s.queue.length) ∧
        (s.currentIndex < j ∧ j < s.queue.length))) ∧
    ((spotifly_move_queue_item s i j).err ≠ none → (spotifly_move_queue_item s i j).st = s) ∧
    (i = j → (spotifly_move_queue_item s i j).st = s) ∧
    ((spotifly_move_queue_item s i j).err = none → i ≠ j →
      (spotifly_move_queue_item s i j).st.currentIndex = s.currentIndex ∧
      (spotifly_move_queue_item s i j).st.queue.length = s.queue.length ∧
      (spotifly_move_queue_item s i j).st.queue[j]? = s.queue[i]? ∧
      (spotifly_move_queue_item s i j).st.queue.eraseIdx j = s.queue.eraseIdx i) := by
  refine ⟨?_, ?_, ?_, ?_, ?_, ?_⟩
  · unfold spotifly_remove_from_queue
    by_cases hc : i ≤ s.currentIndex ∨ s.queue.length ≤ i <;> simp [hc] <;> omega
  · unfold spotifly_remove_from_queue
    by_cases hc : i ≤ s.currentIndex ∨ s.queue.length ≤ i <;> simp [hc]
  · unfold spotifly_move_queue_item
    by_cases hc : i ≤ s.currentIndex ∨ j ≤ s.currentIndex ∨
        s.queue.length ≤ i ∨ s.queue.length ≤ j
    · rw [dif_pos hc]
      simp only [Out.err]
      constructor
      · intro h'; exact absurd h' (by simp)
      · intro h'; omega
    · rw [dif_neg hc]
      by_cases hij : i = j
      · rw [if_pos hij]
        simp only [Out.err]
        constructor
        · intro _; omega
        · intro _; trivial
      · rw [if_neg hij]
        simp only [Out.err]
        constructor
        · intro _; omega
        · intro _; trivial
  · unfold spotifly_move_queue_item
    by_cases hc : i ≤ s.currentIndex ∨ j ≤ s.currentIndex ∨
        s.queue.length ≤ i ∨ s.queue.length ≤ j
    · rw [dif_pos hc]; intro _; rfl
    · rw [dif_neg hc]
      by_cases hij : i = j
      · rw [if_pos hij]; intro _; rfl
      · rw [if_neg hij]; intro h'; exact absurd rfl h'
  · intro hij
    unfold spotifly_move_queue_item
    by_cases hc : i ≤ s.currentIndex ∨ j ≤ s.currentIndex ∨
        s.queue.length ≤ i ∨ s.queue.length ≤ j
    · rw [dif_pos hc]
    · rw [dif_neg hc, if_pos hij]
  · intro herr hij
    unfold spotifly_move_queue_item at herr ⊢
    by_cases hc : i ≤ s.currentIndex ∨ j ≤ s.currentIndex ∨
        s.queue.length ≤ i ∨ s.queue.length ≤ j
    · rw [dif_pos hc] at herr
      exact absurd herr (by simp)
    · rw [dif_neg hc] at herr ⊢
      rw [if_neg hij] at herr ⊢
      have h3 : i < s.queue.length := by omega
      have h4 : j < s.queue.length := by omega
      have hel : (s.queue.eraseIdx i).length = s.queue.length - 1 := by
        rw [List.length_eraseIdx]; simp [h3]
      have hjle : j ≤ (s.queue.eraseIdx i).length := by omega
      refine ⟨rfl, ?_, ?_, ?_⟩
      · show ((s.queue.eraseIdx i).insertIdx j (s.queue.get ⟨i, h3⟩)).length = s.queue.length
        rw [List.length_insertIdx _ _ hjle, hel]
        omega
      · show ((s.queue.eraseIdx i).insertIdx j (s.queue.get ⟨i, h3⟩))[j]? = s.queue[i]?
        have hlt : j < ((s.queue.eraseIdx i).insertIdx j
            (s.queue.get ⟨i, h3⟩)).length := by
          rw [List.length_insertIdx _ _ hjle]; omega
        rw [List.getElem?_eq_getElem hlt, List.getElem?_eq_getElem h3]
        congr 1
        rw [List.getElem_insertIdx_self _ _ _ hjle]
        simp [List.get_eq_getElem]
      · show ((s.queue.eraseIdx i).insertIdx j (s.queue.get ⟨i, h3⟩)).eraseIdx j =
          s.queue.eraseIdx i
        exact List.eraseIdx_insertIdx j (s.queue.eraseIdx i)

/-- Witness for C3 on a concrete two-track queue: removing index 1 with the
cursor at 0 succeeds. -/
theorem c3_remove_move_success_conditions_witness :
    (spotifly_remove_from_queue demoReadySt 1).err = none :=
  (c3_remove_move_success_conditions demoReadySt 1 1).1.mpr (by decide)


/-- C7 counterexample: the URL `https://open.spotify.com/track/intl-de` has
the form `https://open.spotify.com/{kind}/{id}` with `kind = track` and
`id = intl-de`, but `url_to_uri` does not rewrite it to
`spotify:track:intl-de`: the `intl-` filter removes the id segment, fewer
than two segments survive, and the input passes through unchanged. -/
theorem c7_url_normalization_counterexample :
    url_to_uri "https://open.spotify.com/track/intl-de" =
      "https://open.spotify.com/track/intl-de" ∧
    url_to_uri "https://open.spotify.com/track/intl-de" ≠ "spotify:track:intl-de" := by
  constructor
  · decide
  · decide

/-- C7 (amended): a web URL `https://open.spotify.com/{kind}/{id}`, with an
optional query string and an optional `intl-` locale segment immediately
after the host, is rewritten to `spotify:{kind}:{id}`, **provided neither
the kind nor the id segment itself begins with `intl-`** (the locale filter
drops `intl-`-prefixed segments wherever they occur, so such URLs pass
through unchanged); any string beginning with `spotify:`, and any string
that is not an http/https URL, passes through unchanged; in particular
`url_to_uri "https://open.spotify.com/intl-de/track/abc123?si=xyz" =
"spotify:track:abc123"`. -/
theorem c7_url_normalization :
    (∀ s : String, ("spotify:".data).isPrefixOf s.data = true → url_to_uri s = s) ∧
    (∀ s : String, ("http://".data).isPrefixOf s.data = false →
      ("https://".data).isPrefixOf s.data = false → url_to_uri s = s) ∧
    (∀ kind id : String, goodSeg kind → goodSeg id → '?' ∉ id.data →
      url_to_uri ("https://open.spotify.com/" ++ kind ++ "/" ++ id) =
        "spotify:" ++ kind ++ ":" ++ id) ∧
    (∀ kind id qs : String, goodSeg kind → goodSeg id → '?' ∉ id.data → '/' ∉ qs.data →
      url_to_uri ("https://open.spotify.com/" ++ kind ++ "/" ++ id ++ "?" ++ qs) =
        "spotify:" ++ kind ++ ":" ++ id) ∧
    (∀ loc kind id : String, '/' ∉ loc.data → goodSeg kind → goodSeg id → '?' ∉ id.data →
      url_to_uri ("https://open.spotify.com/intl-" ++ loc ++ "/" ++ kind ++ "/" ++ id) =
        "spotify:" ++ kind ++ ":" ++ id) ∧
    url_to_uri "https://open.spotify.com/intl-de/track/abc123?si=xyz" =
      "spotify:track:abc123" := by
  have houtput : ∀ kind id : String,
      String.mk ("spotify:".data ++ kind.data ++ ':' :: id.data) =
        "spotify:" ++ kind ++ ":" ++ id := by
    intro kind id
    apply string_eq_of_data
    simp [String.data_append, List.append_assoc,
      show (":" : String).data = [':'] from rfl]
  refine ⟨?_, ?_, ?_, ?_, ?_, by decide⟩
  · intro s hpre
    have hcore : urlToUriL s.data = s.data := by
      unfold urlToUriL
      rw [hpre]
      rfl
    show String.mk (urlToUriL s.data) = s
    rw [hcore]
  · intro s h1 h2
    have hcore : urlToUriL s.data = s.data := by
      unfold urlToUriL
      by_cases hsp : ("spotify:".data).isPrefixOf s.data = true
      · rw [hsp]; rfl
      · simp [hsp, h1, h2]
    show String.mk (urlToUriL s.data) = s
    rw [hcore]
  · intro kind id hk hid hq
    have hdata : ("https://open.spotify.com/" ++ kind ++ "/" ++ id).data =
        "https://open.spotify.com/".data ++ (kind.data ++ '/' :: id.data) := by
      simp [String.data_append, List.append_assoc,
        show ("/" : String).data = ['/'] from rfl]
    have hsplit : (splitOnChar '/' (kind.data ++ '/' :: id.data)).filter
        (fun p => ! ("intl-".data).isPrefixOf p) = kind.data :: id.data :: [] := by
      rw [splitOnChar_append _ hk.1, splitOnChar_of_not_mem hid.1]
      simp [List.filter, hk.2, hid.2]
    show String.mk (urlToUriL ("https://open.spotify.com/" ++ kind ++ "/" ++ id).data) = _
    rw [hdata, urlToUriL_rewrite _ _ _ _ hsplit, takeUntilChar_of_not_mem hq]
    exact houtput kind id
  · intro kind id qs hk hid hq hqs
    have hdata : ("https://open.spotify.com/" ++ kind ++ "/" ++ id ++ "?" ++ qs).data =
        "https://open.spotify.com/".data ++
          (kind.data ++ '/' :: (id.data ++ '?' :: qs.data)) := by
      simp [String.data_append, List.append_assoc,
        show ("/" : String).data = ['/'] from rfl,
        show ("?" : String).data = ['?'] from rfl]
    have hnoslash : '/' ∉ id.data ++ '?' :: qs.data := by
      simp only [List.mem_append, List.mem_cons, not_or]
      exact ⟨hid.1, by decide, hqs⟩
    have hintl : ("intl-".data).isPrefixOf (id.data ++ '?' :: qs.data) = false :=
      isPrefixOf_append_cons_false _ hid.2 (by decide)
    have hsplit : (splitOnChar '/' (kind.data ++ '/' :: (id.data ++ '?' :: qs.data))).filter
        (fun p => ! ("intl-".data).isPrefixOf p) =
          kind.data :: (id.data ++ '?' :: qs.data) :: [] := by
      rw [splitOnChar_append _ hk.1, splitOnChar_of_not_mem hnoslash]
      simp [List.filter, hk.2, hintl]
    show String.mk
        (urlToUriL ("https://open.spotify.com/" ++ kind ++ "/" ++ id ++ "?" ++ qs).data) = _
    rw [hdata, urlToUriL_rewrite _ _ _ _ hsplit, takeUntilChar_append _ hq]
    exact houtput kind id
  · intro loc kind id hloc hk hid hq
    have hdata : ("https://open.spotify.com/intl-" ++ loc ++ "/" ++ kind ++ "/" ++ id).data =
        "https://open.spotify.com/".data ++
          (("intl-".data ++ loc.data) ++ '/' :: (kind.data ++ '/' :: id.data)) := by
      simp [String.data_append, List.append_assoc,
        show ("https://open.spotify.com/intl-" : String).data =
          "https://open.spotify.com/".data ++ "intl-".data from rfl,
        show ("/" : String).data = ['/'] from rfl]
    have hnoslash : '/' ∉ "intl-".data ++ loc.data := by
      simp only [List.mem_append, not_or]
      exact ⟨by decide, hloc⟩
    have hsplit : (splitOnChar '/'
        (("intl-".data ++ loc.data) ++ '/' :: (kind.data ++ '/' :: id.data))).filter
        (fun p => ! ("intl-".data).isPrefixOf p) = kind.data :: id.data :: [] := by
      rw [splitOnChar_append _ hnoslash, splitOnChar_append _ hk.1,
        splitOnChar_of_not_mem hid.1]
      simp [List.filter, hk.2, hid.2, isPrefixOf_append_self]
    show String.mk
        (urlToUriL ("https://open.spotify.com/intl-" ++ loc ++ "/" ++ kind ++ "/" ++ id).data) = _
    rw [hdata, urlToUriL_rewrite _ _ _ _ hsplit, takeUntilChar_of_not_mem hq]
    exact houtput kind id

/-- Witness for C7 at a concrete kind and id. -/
theorem c7_url_normalization_witness :
    url_to_uri ("https://open.spotify.com/" ++ "track" ++ "/" ++ "abc") =
      "spotify:" ++ "track" ++ ":" ++ "abc" :=
  c7_url_normalization.2.2.1 "track" "abc" (by decide) (by decide) (by decide)

/-- C2 counterexample: with a stored u32 position at the u32 maximum, a
playing read does not return `stored + min(now - ts, 5000)`: the addition
saturates at the u32 maximum. -/
theorem c2_position_read_counterexample :
    spotifly_get_position_ms (onPlayerEvent initSt (.playing 4294967295) 1).1 2 =
      4294967295 ∧
    4294967295 + min (2 - 1) 5000 ≠ 4294967295 := by
  constructor
  · decide
  · decide

/-- C2 (amended): positionMs() returns 0 when no observation was ever
recorded; after an observation `(p, playing)` recorded at wall-clock `t0 > 0`,
a read at `t0 + d` returns `min(p + min(d, 5000), 2^32 - 1)` when playing
(the interpolated sum saturates at the u32 maximum) and the stored `p`
unchanged when paused; in particular record(1000, playing) read 2000 ms
later yields 3000 and read 10000 ms later yields 6000. -/
theorem c2_position_read_semantics :
    (∀ now, spotifly_get_position_ms initSt now = 0) ∧
    (∀ (s : St) (p t0 d : Nat), t0 ≠ 0 →
      spotifly_get_position_ms (onPlayerEvent s (.playing p) t0).1 (t0 + d) =
        min (p + min d 5000) U32_MAX) ∧
    (∀ (s : St) (p t0 now : Nat), t0 ≠ 0 →
      spotifly_get_position_ms (onPlayerEvent s (.paused p) t0).1 now = p) ∧
    spotifly_get_position_ms (onPlayerEvent initSt (.playing 1000) 1).1 (1 + 2000) = 3000 ∧
    spotifly_get_position_ms (onPlayerEvent initSt (.playing 1000) 1).1 (1 + 10000) = 6000 := by
  refine ⟨?_, ?_, ?_, by decide, by decide⟩
  · intro now; rfl
  · intro s p t0 d ht0
    simp [onPlayerEvent, updatePosition, spotifly_get_position_ms, ht0,
      Nat.add_sub_cancel_left]
  · intro s p t0 now ht0
    simp [onPlayerEvent, updatePosition, spotifly_get_position_ms, ht0]

/-- Witness for C2 at concrete inputs. -/
theorem c2_position_read_semantics_witness :
    spotifly_get_position_ms (onPlayerEvent initSt (.playing 1000) 1).1 (1 + 2000) =
      min (1000 + min 2000 5000) U32_MAX :=
  c2_position_read_semantics.2.1 initSt 1000 1 2000 (by decide)

/-- C4 counterexample: when the audio-backend lookup fails (after the mixer
was opened and stored), the failed initialization leaves the mixer handle
stored, contradicting the claim that no partial state is retained. -/
theorem c4_init_failure_counterexample :
    (spotifly_init_player initSt .noBackend).err = some .noBackend ∧
    (spotifly_init_player initSt .noBackend).st.mixerInit = true ∧
    (spotifly_init_player initSt .noBackend).st.sessionInit = false ∧
    (spotifly_init_player initSt .noBackend).st.playerInit = false := by
  refine ⟨?_, ?_, ?_, ?_⟩ <;> decide

/-- C4 (amended): a failed initialize stores no session handle, no player
handle and no event-loop sender (those fields are exactly as before the
call, hence absent when starting from `Uninitialized`), and does not touch
the queue; the mixer handle, however, is retained exactly when the failure
is the audio-backend lookup, which runs after the mixer was opened and
stored. -/
theorem c4_init_failure_no_partial_state (s : St) (o : InitOutcome)
    (herr : (spotifly_init_player s o).err ≠ none) :
    (spotifly_init_player s o).st.sessionInit = s.sessionInit ∧
    (spotifly_init_player s o).st.playerInit = s.playerInit ∧
    (spotifly_init_player s o).st.txInit = s.txInit ∧
    (spotifly_init_player s o).st.spircInit = s.spircInit ∧
    (spotifly_init_player s o).st.queue = s.queue ∧
    ((spotifly_init_player s o).st.mixerInit =
      if o = .noBackend then true else s.mixerInit) := by
  by_cases hs : s.sessionInit = true
  · simp [spotifly_init_player, hs] at herr
  · cases o with
    | cacheFail => simp [spotifly_init_player, hs]
    | connectFail => simp [spotifly_init_player, hs]
    | mixerFail => simp [spotifly_init_player, hs]
    | noBackend => simp [spotifly_init_player, hs]
    | ok b => simp [spotifly_init_player, hs] at herr

/-- Witness for C4 on a concrete failing initialization. -/
theorem c4_init_failure_no_partial_state_witness :
    (spotifly_init_player initSt .connectFail).st.queue = initSt.queue :=
  (c4_init_failure_no_partial_state initSt .connectFail (by decide)).2.2.2.2.1

/-- C9: if any identifier in the list fails to resolve as a track (it does
not parse, parses as a non-track kind, or the metadata fetch fails), the
whole playMany call fails and the entire state - in particular the queue
sequence and the cursor - is exactly as before the call. -/
theorem c9_playmany_atomicity (s : St) (uris : List String)
    (fetch : SUri → Option TrackMeta)
    (hbad : ∃ u ∈ uris, ¬ resolvesTrack fetch u) :
    (spotifly_play_tracks s uris fetch).err ≠ none ∧
    (spotifly_play_tracks s uris fetch).st = s := by
  obtain ⟨e, he⟩ := resolveAll_error_of_bad hbad
  by_cases h1 : uris.isEmpty
  · simp [spotifly_play_tracks, h1]
  · by_cases h2 : s.playerInit = true
    case neg => simp [spotifly_play_tracks, h1, h2]
    by_cases h3 : s.sessionInit = true
    case neg => simp [spotifly_play_tracks, h1, h2, h3]
    simp [spotifly_play_tracks, h1, h2, h3, he]

/-- Witness for C9: a resolver that fails on the only identifier leaves a
concrete initialized two-track state untouched. -/
theorem c9_playmany_atomicity_witness :
    (spotifly_play_tracks demoReadySt ["spotify:track:aa"] (fun _ => none)).err ≠ none ∧
    (spotifly_play_tracks demoReadySt ["spotify:track:aa"] (fun _ => none)).st =
      demoReadySt :=
  c9_playmany_atomicity demoReadySt ["spotify:track:aa"] (fun _ => none)
    ⟨"spotify:track:aa", by simp, fun ⟨id, _, hf⟩ => by simp at hf⟩

/-- C8 counterexample: replacing with the empty list does not succeed -
`spotifly_play_tracks` rejects an empty identifier array with an error and
leaves the previous queue (here of length 2) untouched. -/
theorem c8_replace_counterexample :
    (spotifly_play_tracks demoReadySt [] demoFetch).err ≠ none ∧
    (spotifly_play_tracks demoReadySt [] demoFetch).st.queue ≠ [] ∧
    (spotifly_play_tracks demoReadySt [] demoFetch).st = demoReadySt := by
  refine ⟨?_, ?_, ?_⟩ <;> decide

/-- C8 (amended): for every prior queue state (with the player initialized)
and every **non-empty** identifier list all of whose entries resolve as
tracks, replace succeeds and afterwards `currentIndex() = 0` and
`queueLength() = length of the list`; an **empty** list is rejected with an
error and the queue is left exactly as it was (it does not become empty). -/
theorem c8_replace_postcondition (s : St) (uris : List String)
    (fetch : SUri → Option TrackMeta)
    (hp : s.playerInit = true) (hs : s.sessionInit = true) (hne : uris ≠ [])
    (hall : ∀ u ∈ uris, resolvesTrack fetch u) :
    ((spotifly_play_tracks s uris fetch).err = none ∧
      spotifly_get_current_index (spotifly_play_tracks s uris fetch).st = 0 ∧
      spotifly_get_queue_length (spotifly_play_tracks s uris fetch).st = uris.length) ∧
    (∀ (s2 : St) (fetch2 : SUri → Option TrackMeta),
      (spotifly_play_tracks s2 [] fetch2).err ≠ none ∧
      (spotifly_play_tracks s2 [] fetch2).st = s2) := by
  constructor
  · obtain ⟨items, hitems⟩ := resolveAll_ok_of_all hall
    obtain ⟨herr, hst⟩ := play_tracks_ok hp hs hne hitems
    refine ⟨herr, ?_, ?_⟩
    · rw [hst]
      rfl
    · rw [hst]
      show items.length = uris.length
      exact resolveAll_ok_length hitems
  · intro s2 fetch2
    simp [spotifly_play_tracks]

/-- Witness for C8 on a concrete replacement of a two-track queue by one
track. -/
theorem c8_replace_postcondition_witness :
    (spotifly_play_tracks demoReadySt ["spotify:track:cc"] demoFetch).err = none :=
  ((c8_replace_postcondition demoReadySt ["spotify:track:cc"] demoFetch rfl rfl
    (by simp)
    (fun u hu => by
      rw [List.mem_singleton] at hu
      subst hu
      exact ⟨"cc", by decide, rfl⟩)).1).1

/-- Helper: any fold of `spotifly_set_bitrate` keeps the stored setting at
most 2, given it starts at most 2. -/
theorem foldl_set_bitrate_le : ∀ (vs : List Nat) (s : St), s.bitrate ≤ 2 →
    (vs.foldl spotifly_set_bitrate s).bitrate ≤ 2 := by
  intro vs
  induction vs with
  | nil => intro s h; exact h
  | cons v rest ih =>
    intro s _
    exact ih _ (by show min v 2 ≤ 2; omega)

/-- C10: setBitrate stores `min(v, 2)`, so the stored setting is always one
of 0, 1, 2 after any sequence of setter calls (starting from the initial
value 1); player initialization maps stored setting 0 to 96 kbps, 2 to
320 kbps, and every other value to 160 kbps, and the configure command
issued by a successful initialization carries exactly that mapping of the
current setting. -/
theorem c10_bitrate_range (v : Nat) (hv : v < 256) :
    (∀ s, spotifly_get_bitrate (spotifly_set_bitrate s v) = min v 2) ∧
    (∀ s, spotifly_get_bitrate (spotifly_set_bitrate s v) ≤ 2) ∧
    spotifly_get_bitrate initSt ≤ 2 ∧
    (∀ vs : List Nat, spotifly_get_bitrate (vs.foldl spotifly_set_bitrate initSt) ≤ 2) ∧
    bitrateKbps 0 = 96 ∧ bitrateKbps 2 = 320 ∧
    (∀ b, b ≠ 0 → b ≠ 2 → bitrateKbps b = 160) ∧
    (∀ (s : St) (spircOk : Bool), s.sessionInit = false →
      (spotifly_init_player s (.ok spircOk)).cmds =
        [.configurePlayer (bitrateKbps (spotifly_get_bitrate s)) (spotifly_get_gapless s)]) := by
  refine ⟨?_, ?_, ?_, ?_, rfl, rfl, ?_, ?_⟩
  · intro s; rfl
  · intro s
    show min v 2 ≤ 2
    omega
  · show (1 : Nat) ≤ 2
    omega
  · intro vs
    exact foldl_set_bitrate_le vs initSt (by show (1 : Nat) ≤ 2; omega)
  · intro b h0 h2
    simp [bitrateKbps, h0, h2]
  · intro s spircOk hs
    simp [spotifly_init_player, hs, bitrateKbps, spotifly_get_bitrate, spotifly_get_gapless]

/-- Witness for C10 at input byte 5. -/
theorem c10_bitrate_range_witness :
    spotifly_get_bitrate (spotifly_set_bitrate initSt 5) = min 5 2 :=
  (c10_bitrate_range 5 (by decide)).1 initSt

theorem specInv_congr {s t : St} (h : SpecInv s) (hq : t.queue = s.queue)
    (hc : t.currentIndex = s.currentIndex) : SpecInv t := by
  unfold SpecInv at *
  rw [hq, hc]
  exact h

theorem specInv_insert {s : St} (h : SpecInv s) (pos : Nat) (it : QueueItem)
    (hpos : pos ≤ s.queue.length) :
    SpecInv { s with queue := s.queue.insertIdx pos it } := by
  obtain ⟨he, hne⟩ := h
  constructor
  · intro hq
    exfalso
    have hl := congrArg List.length hq
    rw [List.length_insertIdx _ _ hpos] at hl
    simp at hl
  · intro _
    show s.currentIndex < (s.queue.insertIdx pos it).length
    rw [List.length_insertIdx _ _ hpos]
    by_cases hqe : s.queue = []
    · rw [he hqe]; simp
    · have := hne hqe; omega

theorem specInv_cursor {s : St} (i : Nat) (hlt : i < s.queue.length) :
    SpecInv { s with currentIndex := i } := by
  constructor
  · intro hq
    rw [hq] at hlt
    simp at hlt
  · intro _
    exact hlt

theorem specInv_replace {s : St} (items : List QueueItem) (hne : items ≠ []) :
    SpecInv { s with queue := items, currentIndex := 0 } := by
  constructor
  · intro _; rfl
  · intro _
    show 0 < items.length
    cases items with
    | nil => exact absurd rfl hne
    | cons a b => simp

theorem specInv_initPlayer {s : St} (h : SpecInv s) (o : InitOutcome) :
    SpecInv (spotifly_init_player s o).st := by
  unfold spotifly_init_player
  by_cases hs : s.sessionInit = true
  · rw [if_pos hs]; exact h
  · rw [if_neg hs]
    cases o with
    | cacheFail => exact h
    | connectFail => exact h
    | mixerFail => exact h
    | noBackend => exact specInv_congr h rfl rfl
    | ok b => exact specInv_congr h rfl rfl

theorem specInv_playTracks {s : St} (h : SpecInv s) (uris : List String)
    (fetch : SUri → Option TrackMeta) : SpecInv (spotifly_play_tracks s uris fetch).st := by
  by_cases h1 : uris.isEmpty
  · simpa [spotifly_play_tracks, h1] using h
  · by_cases h2 : s.playerInit = true
    case neg => simpa [spotifly_play_tracks, h1, h2] using h
    by_cases h3 : s.sessionInit = true
    case neg => simpa [spotifly_play_tracks, h1, h2, h3] using h
    cases hres : resolveAll fetch uris with
    | error e => simpa [spotifly_play_tracks, h1, h2, h3, hres] using h
    | ok items =>
      cases uris with
      | nil => simp at h1
      | cons u rest =>
        have hlen := resolveAll_ok_length hres
        have hine : items ≠ [] := by
          cases items with
          | nil => simp at hlen
          | cons a b => simp
        have hst := (play_tracks_ok h2 h3 (by simp) hres).2
        rw [hst]
        exact specInv_replace items hine

theorem specInv_playTrack {s : St} (h : SpecInv s) (input : String) (env : PlayEnv) :
    SpecInv (spotifly_play_track s input env).st := by
  by_cases h2 : s.playerInit = true
  case neg => simpa [spotifly_play_track, h2] using h
  by_cases h3 : s.sessionInit = true
  case neg => simpa [spotifly_play_track, h2, h3] using h
  cases hp : parseSUri (url_to_uri input) with
  | none => simpa [spotifly_play_track, h2, h3, hp] using h
  | some su =>
    cases su with
    | track id =>
      cases hf : env.fetchTrack (.track id) with
      | none => simpa [spotifly_play_track, h2, h3, hp, hf] using h
      | some m =>
        simpa [spotifly_play_track, h2, h3, hp, hf] using
          @specInv_replace { s with isPlaying := true } [mkItem (url_to_uri input) m]
            (by simp)
    | album id =>
      cases hc : env.fetchColl (.album id) with
      | none => simpa [spotifly_play_track, h2, h3, hp, hc] using h
      | some tracks =>
        cases tracks with
        | nil => simpa [spotifly_play_track, h2, h3, hp, hc] using h
        | cons t ts =>
          cases hq : parseSUri (mkItem (SUri.toUri (.track t.1)) t.2).uri with
          | none =>
            simpa [spotifly_play_track, h2, h3, hp, hc, hq] using
              @specInv_replace s
                ((t :: ts).map (fun p => mkItem (SUri.toUri (.track p.1)) p.2)) (by simp)
          | some fu =>
            simpa [spotifly_play_track, h2, h3, hp, hc, hq] using
              @specInv_replace { s with isPlaying := true }
                ((t :: ts).map (fun p => mkItem (SUri.toUri (.track p.1)) p.2)) (by simp)
    | playlist id =>
      cases hc : env.fetchColl (.playlist id) with
      | none => simpa [spotifly_play_track, h2, h3, hp, hc] using h
      | some tracks =>
        cases tracks with
        | nil => simpa [spotifly_play_track, h2, h3, hp, hc] using h
        | cons t ts =>
          cases hq : parseSUri (mkItem (SUri.toUri (.track t.1)) t.2).uri with
          | none =>
            simpa [spotifly_play_track, h2, h3, hp, hc, hq] using
              @specInv_replace s
                ((t :: ts).map (fun p => mkItem (SUri.toUri (.track p.1)) p.2)) (by simp)
          | some fu =>
            simpa [spotifly_play_track, h2, h3, hp, hc, hq] using
              @specInv_replace { s with isPlaying := true }
                ((t :: ts).map (fun p => mkItem (SUri.toUri (.track p.1)) p.2)) (by simp)
    | artist id =>
      cases hc : env.fetchColl (.artist id) with
      | none => simpa [spotifly_play_track, h2, h3, hp, hc] using h
      | some tracks =>
        cases tracks with
        | nil => simpa [spotifly_play_track, h2, h3, hp, hc] using h
        | cons t ts =>
          cases hq : parseSUri (mkItem (SUri.toUri (.track t.1)) t.2).uri with
          | none =>
            simpa [spotifly_play_track, h2, h3, hp, hc, hq] using
              @specInv_replace s
                ((t :: ts).map (fun p => mkItem (SUri.toUri (.track p.1)) p.2)) (by simp)
          | some fu =>
            simpa [spotifly_play_track, h2, h3, hp, hc, hq] using
              @specInv_replace { s with isPlaying := true }
                ((t :: ts).map (fun p => mkItem (SUri.toUri (.track p.1)) p.2)) (by simp)

theorem specInv_add {s : St} (h : SpecInv s) (u : String)
    (fetch : SUri → Option TrackMeta) : SpecInv (spotifly_add_to_queue s u fetch).st := by
  by_cases h3 : s.sessionInit = true
  case neg => simpa [spotifly_add_to_queue, h3] using h
  cases hp : parseSUri u with
  | none => simpa [spotifly_add_to_queue, h3, hp] using h
  | some su =>
    cases su with
    | track id =>
      cases hf : fetch (.track id) with
      | none => simpa [spotifly_add_to_queue, h3, hp, hf] using h
      | some m =>
        have happ : s.queue ++ [mkItem u m] = s.queue.insertIdx s.queue.length (mkItem u m) :=
          (List.insertIdx_length_self s.queue (mkItem u m)).symm
        have := specInv_insert h s.queue.length (mkItem u m) (le_refl _)
        rw [← happ] at this
        simpa [spotifly_add_to_queue, h3, hp, hf] using this
    | album id => simpa [spotifly_add_to_queue, h3, hp] using h
    | playlist id => simpa [spotifly_add_to_queue, h3, hp] using h
    | artist id => simpa [spotifly_add_to_queue, h3, hp] using h

theorem specInv_addNext {s : St} (h : SpecInv s) (u : String)
    (fetch : SUri → Option TrackMeta) : SpecInv (spotifly_add_next_to_queue s u fetch).st := by
  by_cases h3 : s.sessionInit = true
  case neg => simpa [spotifly_add_next_to_queue, h3] using h
  cases hp : parseSUri u with
  | none => simpa [spotifly_add_next_to_queue, h3, hp] using h
  | some su =>
    cases su with
    | track id =>
      cases hf : fetch (.track id) with
      | none => simpa [spotifly_add_next_to_queue, h3, hp, hf] using h
      | some m =>
        have hpos : (if s.queue.isEmpty then 0
            else min (s.currentIndex + 1) s.queue.length) ≤ s.queue.length := by
          by_cases hq : s.queue.isEmpty <;> simp [hq]
        have := specInv_insert h _ (mkItem u m) hpos
        simpa [spotifly_add_next_to_queue, h3, hp, hf] using this
    | album id => simpa [spotifly_add_next_to_queue, h3, hp] using h
    | playlist id => simpa [spotifly_add_next_to_queue, h3, hp] using h
    | artist id => simpa [spotifly_add_next_to_queue, h3, hp] using h

theorem specInv_next {s : St} (h : SpecInv s) : SpecInv (spotifly_next s).st := by
  unfold spotifly_next
  by_cases hlt : s.currentIndex + 1 < s.queue.length
  · rw [dif_pos hlt]
    have hs1 : SpecInv { s with currentIndex := s.currentIndex + 1 } := specInv_cursor _ hlt
    by_cases h2 : s.playerInit = true
    case neg => simpa [h2] using hs1
    simp only [h2, not_true_eq_false, if_false, Bool.not_eq_true]
    cases hq : parseSUri (s.queue.get ⟨s.currentIndex + 1, hlt⟩).uri with
    | none => exact hs1
    | some u => exact hs1
  · rw [dif_neg hlt]
    exact h

theorem specInv_previous {s : St} (h : SpecInv s) : SpecInv (spotifly_previous s).st := by
  unfold spotifly_previous
  by_cases h0 : s.currentIndex = 0
  · rw [if_pos h0]; exact h
  · rw [if_neg h0]
    cases hg : s.queue[s.currentIndex - 1]? with
    | none => exact h
    | some it =>
      have hlen : s.currentIndex - 1 < s.queue.length := by
        by_contra hnl
        rw [List.getElem?_eq_none (by omega)] at hg
        exact Option.noConfusion hg
      have hs1 : SpecInv { s with currentIndex := s.currentIndex - 1 } := specInv_cursor _ hlen
      by_cases h2 : s.playerInit = true
      case neg => simpa [h2] using hs1
      simp only [h2, not_true_eq_false, if_false, Bool.not_eq_true]
      cases hq : parseSUri it.uri with
      | none => exact hs1
      | some u => exact hs1

theorem specInv_jump {s : St} (h : SpecInv s) (i : Nat) :
    SpecInv (spotifly_jump_to_index s i).st := by
  unfold spotifly_jump_to_index
  by_cases hlt : i < s.queue.length
  · rw [dif_pos hlt]
    have hs1 : SpecInv { s with currentIndex := i } := specInv_cursor _ hlt
    by_cases h2 : s.playerInit = true
    case neg => simpa [h2] using hs1
    simp only [h2, not_true_eq_false, if_false, Bool.not_eq_true]
    cases hq : parseSUri (s.queue.get ⟨i, hlt⟩).uri with
    | none => exact hs1
    | some u => exact hs1
  · rw [dif_neg hlt]
    exact h

theorem specInv_remove {s : St} (h : SpecInv s) (i : Nat) :
    SpecInv (spotifly_remove_from_queue s i).st := by
  unfold spotifly_remove_from_queue
  by_cases hc : i ≤ s.currentIndex ∨ s.queue.length ≤ i
  · rw [if_pos hc]; exact h
  · rw [if_neg hc]
    have h1 : s.currentIndex < i := by omega
    have h2 : i < s.queue.length := by omega
    have hlen : (s.queue.eraseIdx i).length = s.queue.length - 1 := by
      rw [List.length_eraseIdx]
      simp [h2]
    constructor
    · intro hq
      exfalso
      have hl := congrArg List.length hq
      rw [hlen] at hl
      simp at hl
      omega
    · intro _
      show s.currentIndex < (s.queue.eraseIdx i).length
      rw [hlen]
      omega

theorem specInv_move {s : St} (h : SpecInv s) (i j : Nat) :
    SpecInv (spotifly_move_queue_item s i j).st := by
  unfold spotifly_move_queue_item
  by_cases hc : i ≤ s.currentIndex ∨ j ≤ s.currentIndex ∨
      s.queue.length ≤ i ∨ s.queue.length ≤ j
  · rw [dif_pos hc]; exact h
  · rw [dif_neg hc]
    by_cases hij : i = j
    · rw [if_pos hij]; exact h
    · rw [if_neg hij]
      have h3 : i < s.queue.length := by omega
      have h4 : j < s.queue.length := by omega
      have hel : (s.queue.eraseIdx i).length = s.queue.length - 1 := by
        rw [List.length_eraseIdx]
        simp [h3]
      have hjle : j ≤ (s.queue.eraseIdx i).length := by omega
      have hlen : ((s.queue.eraseIdx i).insertIdx j (s.queue.get ⟨i, h3⟩)).length =
          s.queue.length := by
        rw [List.length_insertIdx _ _ hjle, hel]
        omega
      constructor
      · intro hq
        exfalso
        have hl := congrArg List.length hq
        rw [hlen, List.length_nil] at hl
        omega
      · intro _
        show s.currentIndex < ((s.queue.eraseIdx i).insertIdx j (s.queue.get ⟨i, h3⟩)).length
        rw [hlen]
        omega

theorem specInv_clear {s : St} (h : SpecInv s) :
    SpecInv (spotifly_clear_upcoming_queue s).st := by
  unfold spotifly_clear_upcoming_queue
  by_cases hlt : s.currentIndex + 1 < s.queue.length
  · rw [if_pos hlt]
    constructor
    · intro hq
      exfalso
      have hl := congrArg List.length hq
      rw [List.length_take, List.length_nil] at hl
      omega
    · intro _
      show s.currentIndex < (s.queue.take (s.currentIndex + 1)).length
      rw [List.length_take]
      omega
  · rw [if_neg hlt]
    exact h

theorem specInv_event {s : St} (h : SpecInv s) (e : PEvent) (now : Nat) :
    SpecInv (onPlayerEvent s e now).1 := by
  cases e with
  | playing p => exact specInv_congr h rfl rfl
  | paused p => exact specInv_congr h rfl rfl
  | positionChanged p => exact specInv_congr h rfl rfl
  | seeked p => exact specInv_congr h rfl rfl
  | stopped => exact specInv_congr h rfl rfl
  | other => exact h
  | endOfTrack =>
    unfold onPlayerEvent
    by_cases hlt : s.currentIndex + 1 < s.queue.length
    · rw [dif_pos hlt]
      have hs1 : SpecInv
          { s with isPlaying := false, positionMs := 0, positionTs := now, currentIndex := s.currentIndex + 1 } := by
        refine ⟨fun hq => ?_, fun _ => ?_⟩
        · exfalso
          have : s.queue = [] := hq
          rw [this] at hlt
          simp at hlt
        · exact hlt
      simp only [updatePosition]
      cases hq : parseSUri (s.queue.get ⟨s.currentIndex + 1, hlt⟩).uri with
      | none => exact hs1
      | some u => exact hs1
    · rw [dif_neg hlt]
      exact specInv_congr h rfl rfl

theorem specInv_pause {s : St} (h : SpecInv s) : SpecInv (spotifly_pause s).st := by
  unfold spotifly_pause
  by_cases h2 : s.playerInit = true
  · rw [if_pos h2]; exact specInv_congr h rfl rfl
  · rw [if_neg h2]; exact h

theorem specInv_resume {s : St} (h : SpecInv s) : SpecInv (spotifly_resume s).st := by
  unfold spotifly_resume
  by_cases h2 : s.playerInit = true
  · rw [if_pos h2]; exact specInv_congr h rfl rfl
  · rw [if_neg h2]; exact h

theorem specInv_stop {s : St} (h : SpecInv s) : SpecInv (spotifly_stop s).st := by
  unfold spotifly_stop
  by_cases h2 : s.playerInit = true
  · rw [if_pos h2]; exact specInv_congr h rfl rfl
  · rw [if_neg h2]; exact h

theorem specInv_seek {s : St} (h : SpecInv s) (ms : Nat) :
    SpecInv (spotifly_seek s ms).st := by
  unfold spotifly_seek
  by_cases h2 : s.playerInit = true
  · rw [if_pos h2]; exact h
  · rw [if_neg h2]; exact h

theorem specInv_setVolume {s : St} (h : SpecInv s) (v : Nat) :
    SpecInv (spotifly_set_volume s v).st := by
  unfold spotifly_set_volume
  by_cases h2 : s.mixerInit = true
  · rw [if_pos h2]; exact h
  · rw [if_neg h2]; exact h

/-- C1: the queue-cursor invariant of the spec's data model (`current_index`
is 0 on an empty sequence and strictly below the length on a non-empty one,
hence `0 ≤ current_index < length` whenever the sequence is non-empty)
holds initially and is preserved by every queue operation: play / playMany
replacement, append, insert-next, remove, move, clear-upcoming, next,
previous, jump, initialization, and every engine event including the
end-of-track auto-advance. -/
theorem c1_queue_cursor_invariant :
    SpecInv initSt ∧
    (∀ (s : St) uris fetch, SpecInv s → SpecInv (spotifly_play_tracks s uris fetch).st) ∧
    (∀ (s : St) input env, SpecInv s → SpecInv (spotifly_play_track s input env).st) ∧
    (∀ (s : St) u fetch, SpecInv s → SpecInv (spotifly_add_to_queue s u fetch).st) ∧
    (∀ (s : St) u fetch, SpecInv s → SpecInv (spotifly_add_next_to_queue s u fetch).st) ∧
    (∀ (s : St) i, SpecInv s → SpecInv (spotifly_remove_from_queue s i).st) ∧
    (∀ (s : St) i j, SpecInv s → SpecInv (spotifly_move_queue_item s i j).st) ∧
    (∀ (s : St), SpecInv s → SpecInv (spotifly_clear_upcoming_queue s).st) ∧
    (∀ (s : St), SpecInv s → SpecInv (spotifly_next s).st) ∧
    (∀ (s : St), SpecInv s → SpecInv (spotifly_previous s).st) ∧
    (∀ (s : St) i, SpecInv s → SpecInv (spotifly_jump_to_index s i).st) ∧
    (∀ (s : St) o, SpecInv s → SpecInv (spotifly_init_player s o).st) ∧
    (∀ (s : St) e now, SpecInv s → SpecInv (onPlayerEvent s e now).1) ∧
    (∀ (s : St), SpecInv s → s.queue ≠ [] → s.currentIndex < s.queue.length) :=
  ⟨⟨fun _ => rfl, fun hne => absurd rfl hne⟩,
    fun _ uris fetch h => specInv_playTracks h uris fetch,
    fun _ input env h => specInv_playTrack h input env,
    fun _ u fetch h => specInv_add h u fetch,
    fun _ u fetch h => specInv_addNext h u fetch,
    fun _ i h => specInv_remove h i,
    fun _ i j h => specInv_move h i j,
    fun _ h => specInv_clear h,
    fun _ h => specInv_next h,
    fun _ h => specInv_previous h,
    fun _ i h => specInv_jump h i,
    fun _ o h => specInv_initPlayer h o,
    fun _ e now h => specInv_event h e now,
    fun _ h hne => h.2 hne⟩

/-- Witness for C1: the invariant is preserved by a concrete jump on a
concrete two-track queue. -/
theorem c1_queue_cursor_invariant_witness :
    SpecInv (spotifly_jump_to_index demoReadySt 1).st :=
  c1_queue_cursor_invariant.2.2.2.2.2.2.2.2.2.2.1 demoReadySt 1 (by decide)

theorem sysInv_transport {s t : St} (h : SysInv s) (hinv : SpecInv t) (hq : t.queue = s.queue)
    (hs : t.sessionInit = s.sessionInit) (hp : t.playerInit = s.playerInit) : SysInv t := by
  obtain ⟨_, h2, h3, h4⟩ := h
  refine ⟨hinv, ?_, ?_, ?_⟩
  · rw [hs, hp]; exact h2
  · rw [hq, hp]; exact h3
  · intro it hit
    exact h4 it (by rw [← hq]; exact hit)

theorem next_shape (s : St) :
    (spotifly_next s).st.queue = s.queue ∧
    (spotifly_next s).st.sessionInit = s.sessionInit ∧
    (spotifly_next s).st.playerInit = s.playerInit := by
  unfold spotifly_next
  by_cases hlt : s.currentIndex + 1 < s.queue.length
  · rw [dif_pos hlt]
    by_cases h2 : s.playerInit = true
    case neg => simp [h2]
    simp only [h2, not_true_eq_false, if_false, Bool.not_eq_true]
    cases hq : parseSUri (s.queue.get ⟨s.currentIndex + 1, hlt⟩).uri with
    | none => exact ⟨rfl, rfl, rfl⟩
    | some u => exact ⟨rfl, rfl, rfl⟩
  · rw [dif_neg hlt]
    exact ⟨rfl, rfl, rfl⟩

theorem previous_shape (s : St) :
    (spotifly_previous s).st.queue = s.queue ∧
    (spotifly_previous s).st.sessionInit = s.sessionInit ∧
    (spotifly_previous s).st.playerInit = s.playerInit := by
  unfold spotifly_previous
  by_cases h0 : s.currentIndex = 0
  · rw [if_pos h0]
    exact ⟨rfl, rfl, rfl⟩
  · rw [if_neg h0]
    cases hg : s.queue[s.currentIndex - 1]? with
    | none => exact ⟨rfl, rfl, rfl⟩
    | some it =>
      by_cases h2 : s.playerInit = true
      case neg => simp [h2]
      simp only [h2, not_true_eq_false, if_false, Bool.not_eq_true]
      cases hq : parseSUri it.uri with
      | none => exact ⟨rfl, rfl, rfl⟩
      | some u => exact ⟨rfl, rfl, rfl⟩

theorem jump_shape (s : St) (i : Nat) :
    (spotifly_jump_to_index s i).st.queue = s.queue ∧
    (spotifly_jump_to_index s i).st.sessionInit = s.sessionInit ∧
    (spotifly_jump_to_index s i).st.playerInit = s.playerInit := by
  unfold spotifly_jump_to_index
  by_cases hlt : i < s.queue.length
  · rw [dif_pos hlt]
    by_cases h2 : s.playerInit = true
    case neg => simp [h2]
    simp only [h2, not_true_eq_false, if_false, Bool.not_eq_true]
    cases hq : parseSUri (s.queue.get ⟨i, hlt⟩).uri with
    | none => exact ⟨rfl, rfl, rfl⟩
    | some u => exact ⟨rfl, rfl, rfl⟩
  · rw [dif_neg hlt]
    exact ⟨rfl, rfl, rfl⟩

theorem event_shape (s : St) (e : PEvent) (now : Nat) :
    (onPlayerEvent s e now).1.queue = s.queue ∧
    (onPlayerEvent s e now).1.sessionInit = s.sessionInit ∧
    (onPlayerEvent s e now).1.playerInit = s.playerInit := by
  cases e with
  | playing p => exact ⟨rfl, rfl, rfl⟩
  | paused p => exact ⟨rfl, rfl, rfl⟩
  | positionChanged p => exact ⟨rfl, rfl, rfl⟩
  | seeked p => exact ⟨rfl, rfl, rfl⟩
  | stopped => exact ⟨rfl, rfl, rfl⟩
  | other => exact ⟨rfl, rfl, rfl⟩
  | endOfTrack =>
    unfold onPlayerEvent
    by_cases hlt : s.currentIndex + 1 < s.queue.length
    · rw [dif_pos hlt]
      simp only [updatePosition]
      cases hq : parseSUri (s.queue.get ⟨s.currentIndex + 1, hlt⟩).uri with
      | none => exact ⟨rfl, rfl, rfl⟩
      | some u => exact ⟨rfl, rfl, rfl⟩
    · rw [dif_neg hlt]
      exact ⟨rfl, rfl, rfl⟩

theorem sysInv_initPlayer {s : St} (h : SysInv s) (o : InitOutcome) :
    SysInv (spotifly_init_player s o).st := by
  obtain ⟨h1, h2, h3, h4⟩ := h
  unfold spotifly_init_player
  by_cases hs : s.sessionInit = true
  · rw [if_pos hs]
    exact ⟨h1, h2, h3, h4⟩
  · rw [if_neg hs]
    cases o with
    | cacheFail => exact ⟨h1, h2, h3, h4⟩
    | connectFail => exact ⟨h1, h2, h3, h4⟩
    | mixerFail => exact ⟨h1, h2, h3, h4⟩
    | noBackend => exact ⟨specInv_congr h1 rfl rfl, h2, h3, h4⟩
    | ok b =>
      exact ⟨specInv_congr h1 rfl rfl, fun _ => rfl, fun _ => rfl, h4⟩

theorem sysInv_playTracks {s : St} (h : SysInv s) (uris : List String)
    (fetch : SUri → Option TrackMeta) : SysInv (spotifly_play_tracks s uris fetch).st := by
  obtain ⟨h1, h2, h3, h4⟩ := h
  by_cases he : (spotifly_play_tracks s uris fetch).err = none
  case neg =>
    rw [play_tracks_fail_unchanged he]
    exact ⟨h1, h2, h3, h4⟩
  by_cases hemp : uris.isEmpty
  · simp [spotifly_play_tracks, hemp] at he
  by_cases hp : s.playerInit = true
  case neg => simp [spotifly_play_tracks, hemp, hp] at he
  by_cases hsess : s.sessionInit = true
  case neg => simp [spotifly_play_tracks, hemp, hp, hsess] at he
  cases hres : resolveAll fetch uris with
  | error e => simp [spotifly_play_tracks, hemp, hp, hsess, hres] at he
  | ok items =>
    cases uris with
    | nil => simp at hemp
    | cons u rest =>
      have hlen := resolveAll_ok_length hres
      have hine : items ≠ [] := by
        cases items with
        | nil => simp at hlen
        | cons a b => simp
      have hst := (play_tracks_ok hp hsess (by simp) hres).2
      rw [hst]
      refine ⟨specInv_replace items hine, h2, fun _ => hp, ?_⟩
      intro it hit
      exact resolveAll_ok_valid hres it hit

theorem validUris_map_wf (tracks : List (String × TrackMeta))
    (hw : ∀ p ∈ tracks, wfId p.1) :
    ∀ it ∈ tracks.map (fun p => mkItem (SUri.toUri (.track p.1)) p.2),
      (parseSUri it.uri).isSome = true := by
  intro it hit
  rw [List.mem_map] at hit
  obtain ⟨p, hp, rfl⟩ := hit
  show (parseSUri (SUri.toUri (.track p.1))).isSome = true
  rw [parseSUri_toUri_track (hw p hp)]
  rfl

theorem sysInv_playTrack {s : St} (h : SysInv s) (input : String) (env : PlayEnv)
    (hw : WfEnv env) : SysInv (spotifly_play_track s input env).st := by
  obtain ⟨h1, h2, h3, h4⟩ := h
  by_cases hp2 : s.playerInit = true
  case neg =>
    have hst : (spotifly_play_track s input env).st = s := by
      simp [spotifly_play_track, hp2]
    rw [hst]
    exact ⟨h1, h2, h3, h4⟩
  by_cases h3s : s.sessionInit = true
  case neg =>
    have hst : (spotifly_play_track s input env).st = s := by
      simp [spotifly_play_track, hp2, h3s]
    rw [hst]
    exact ⟨h1, h2, h3, h4⟩
  cases hp : parseSUri (url_to_uri input) with
  | none =>
    have hst : (spotifly_play_track s input env).st = s := by
      simp [spotifly_play_track, hp2, h3s, hp]
    rw [hst]
    exact ⟨h1, h2, h3, h4⟩
  | some su =>
    cases su with
    | track id =>
      cases hf : env.fetchTrack (.track id) with
      | none =>
        have hst : (spotifly_play_track s input env).st = s := by
          simp [spotifly_play_track, hp2, h3s, hp, hf]
        rw [hst]
        exact ⟨h1, h2, h3, h4⟩
      | some m =>
        have hst : (spotifly_play_track s input env).st =
            { s with queue := [mkItem (url_to_uri input) m], currentIndex := 0,
                     isPlaying := true } := by
          simp [spotifly_play_track, hp2, h3s, hp, hf]
        rw [hst]
        refine ⟨@specInv_replace { s with isPlaying := true } _ (by simp), h2,
          fun _ => hp2, ?_⟩
        intro it hit
        rw [List.mem_singleton] at hit
        subst hit
        show (parseSUri (url_to_uri input)).isSome = true
        rw [hp]
        rfl
    | album id =>
      cases hc : env.fetchColl (.album id) with
      | none =>
        have hst : (spotifly_play_track s input env).st = s := by
          simp [spotifly_play_track, hp2, h3s, hp, hc]
        rw [hst]
        exact ⟨h1, h2, h3, h4⟩
      | some tracks =>
        cases tracks with
        | nil =>
          have hst : (spotifly_play_track s input env).st = s := by
            simp [spotifly_play_track, hp2, h3s, hp, hc]
          rw [hst]
          exact ⟨h1, h2, h3, h4⟩
        | cons t ts =>
          have hval := validUris_map_wf (t :: ts) (hw _ _ hc)
          cases hq : parseSUri (mkItem (SUri.toUri (.track t.1)) t.2).uri with
          | none =>
            have hst : (spotifly_play_track s input env).st = { s with
                queue := (t :: ts).map (fun p => mkItem (SUri.toUri (.track p.1)) p.2),
                currentIndex := 0 } := by
              simp [spotifly_play_track, hp2, h3s, hp, hc, hq]
            rw [hst]
            exact ⟨@specInv_replace s _ (by simp), h2, fun _ => hp2, hval⟩
          | some fu =>
            have hst : (spotifly_play_track s input env).st = { s with
                queue := (t :: ts).map (fun p => mkItem (SUri.toUri (.track p.1)) p.2),
                currentIndex := 0, isPlaying := true } := by
              simp [spotifly_play_track, hp2, h3s, hp, hc, hq]
            rw [hst]
            exact ⟨@specInv_replace { s with isPlaying := true } _ (by simp), h2,
              fun _ => hp2, hval⟩
    | playlist id =>
      cases hc : env.fetchColl (.playlist id) with
      | none =>
        have hst : (spotifly_play_track s input env).st = s := by
          simp [spotifly_play_track, hp2, h3s, hp, hc]
        rw [hst]
        exact ⟨h1, h2, h3, h4⟩
      | some tracks =>
        cases tracks with
        | nil =>
          have hst : (spotifly_play_track s input env).st = s := by
            simp [spotifly_play_track, hp2, h3s, hp, hc]
          rw [hst]
          exact ⟨h1, h2, h3, h4⟩
        | cons t ts =>
          have hval := validUris_map_wf (t :: ts) (hw _ _ hc)
          cases hq : parseSUri (mkItem (SUri.toUri (.track t.1)) t.2).uri with
          | none =>
            have hst : (spotifly_play_track s input env).st = { s with
                queue := (t :: ts).map (fun p => mkItem (SUri.toUri (.track p.1)) p.2),
                currentIndex := 0 } := by
              simp [spotifly_play_track, hp2, h3s, hp, hc, hq]
            rw [hst]
            exact ⟨@specInv_replace s _ (by simp), h2, fun _ => hp2, hval⟩
          | some fu =>
            have hst : (spotifly_play_track s input env).st = { s with
                queue := (t :: ts).map (fun p => mkItem (SUri.toUri (.track p.1)) p.2),
                currentIndex := 0, isPlaying := true } := by
              simp [spotifly_play_track, hp2, h3s, hp, hc, hq]
            rw [hst]
            exact ⟨@specInv_replace { s with isPlaying := true } _ (by simp), h2,
              fun _ => hp2, hval⟩
    | artist id =>
      cases hc : env.fetchColl (.artist id) with
      | none =>
        have hst : (spotifly_play_track s input env).st = s := by
          simp [spotifly_play_track, hp2, h3s, hp, hc]
        rw [hst]
        exact ⟨h1, h2, h3, h4⟩
      | some tracks =>
        cases tracks with
        | nil =>
          have hst : (spotifly_play_track s input env).st = s := by
            simp [spotifly_play_track, hp2, h3s, hp, hc]
          rw [hst]
          exact ⟨h1, h2, h3, h4⟩
        | cons t ts =>
          have hval := validUris_map_wf (t :: ts) (hw _ _ hc)
          cases hq : parseSUri (mkItem (SUri.toUri (.track t.1)) t.2).uri with
          | none =>
            have hst : (spotifly_play_track s input env).st = { s with
                queue := (t :: ts).map (fun p => mkItem (SUri.toUri (.track p.1)) p.2),
                currentIndex := 0 } := by
              simp [spotifly_play_track, hp2, h3s, hp, hc, hq]
            rw [hst]
            exact ⟨@specInv_replace s _ (by simp), h2, fun _ => hp2, hval⟩
          | some fu =>
            have hst : (spotifly_play_track s input env).st = { s with
                queue := (t :: ts).map (fun p => mkItem (SUri.toUri (.track p.1)) p.2),
                currentIndex := 0, isPlaying := true } := by
              simp [spotifly_play_track, hp2, h3s, hp, hc, hq]
            rw [hst]
            exact ⟨@specInv_replace { s with isPlaying := true } _ (by simp), h2,
              fun _ => hp2, hval⟩

theorem sysInv_add {s : St} (h : SysInv s) (u : String)
    (fetch : SUri → Option TrackMeta) : SysInv (spotifly_add_to_queue s u fetch).st := by
  obtain ⟨h1, h2, h3, h4⟩ := h
  by_cases h3s : s.sessionInit = true
  case neg =>
    have hst : (spotifly_add_to_queue s u fetch).st = s := by
      simp [spotifly_add_to_queue, h3s]
    rw [hst]
    exact ⟨h1, h2, h3, h4⟩
  cases hp : parseSUri u with
  | none =>
    have hst : (spotifly_add_to_queue s u fetch).st = s := by
      simp [spotifly_add_to_queue, h3s, hp]
    rw [hst]
    exact ⟨h1, h2, h3, h4⟩
  | some su =>
    cases su with
    | track id =>
      cases hf : fetch (.track id) with
      | none =>
        have hst : (spotifly_add_to_queue s u fetch).st = s := by
          simp [spotifly_add_to_queue, h3s, hp, hf]
        rw [hst]
        exact ⟨h1, h2, h3, h4⟩
      | some m =>
        have hst : (spotifly_add_to_queue s u fetch).st =
            { s with queue := s.queue ++ [mkItem u m] } := by
          simp [spotifly_add_to_queue, h3s, hp, hf]
        rw [hst]
        refine ⟨?_, h2, fun _ => h2 h3s, ?_⟩
        · have happ : s.queue ++ [mkItem u m] =
              s.queue.insertIdx s.queue.length (mkItem u m) :=
            (List.insertIdx_length_self s.queue (mkItem u m)).symm
          have := specInv_insert h1 s.queue.length (mkItem u m) (le_refl _)
          rw [← happ] at this
          exact this
        · intro it hit
          rw [List.mem_append, List.mem_singleton] at hit
          rcases hit with hin | rfl
          · exact h4 it hin
          · show (parseSUri u).isSome = true
            rw [hp]
            rfl
    | album id =>
      have hst : (spotifly_add_to_queue s u fetch).st = s := by
        simp [spotifly_add_to_queue, h3s, hp]
      rw [hst]
      exact ⟨h1, h2, h3, h4⟩
    | playlist id =>
      have hst : (spotifly_add_to_queue s u fetch).st = s := by
        simp [spotifly_add_to_queue, h3s, hp]
      rw [hst]
      exact ⟨h1, h2, h3, h4⟩
    | artist id =>
      have hst : (spotifly_add_to_queue s u fetch).st = s := by
        simp [spotifly_add_to_queue, h3s, hp]
      rw [hst]
      exact ⟨h1, h2, h3, h4⟩

theorem sysInv_addNext {s : St} (h : SysInv s) (u : String)
    (fetch : SUri → Option TrackMeta) : SysInv (spotifly_add_next_to_queue s u fetch).st := by
  obtain ⟨h1, h2, h3, h4⟩ := h
  by_cases h3s : s.sessionInit = true
  case neg =>
    have hst : (spotifly_add_next_to_queue s u fetch).st = s := by
      simp [spotifly_add_next_to_queue, h3s]
    rw [hst]
    exact ⟨h1, h2, h3, h4⟩
  cases hp : parseSUri u with
  | none =>
    have hst : (spotifly_add_next_to_queue s u fetch).st = s := by
      simp [spotifly_add_next_to_queue, h3s, hp]
    rw [hst]
    exact ⟨h1, h2, h3, h4⟩
  | some su =>
    cases su with
    | track id =>
      cases hf : fetch (.track id) with
      | none =>
        have hst : (spotifly_add_next_to_queue s u fetch).st = s := by
          simp [spotifly_add_next_to_queue, h3s, hp, hf]
        rw [hst]
        exact ⟨h1, h2, h3, h4⟩
      | some m =>
        have hpos : (if s.queue.isEmpty then 0
            else min (s.currentIndex + 1) s.queue.length) ≤ s.queue.length := by
          by_cases hq : s.queue.isEmpty <;> simp [hq]
        have hst : (spotifly_add_next_to_queue s u fetch).st = { s with queue := s.queue.insertIdx (if s.queue.isEmpty then 0 else min (s.currentIndex + 1) s.queue.length) (mkItem u m) } := by
          simp [spotifly_add_next_to_queue, h3s, hp, hf]
        rw [hst]
        refine ⟨specInv_insert h1 _ (mkItem u m) hpos, h2, fun _ => h2 h3s, ?_⟩
        intro it hit
        rw [List.mem_insertIdx hpos] at hit
        rcases hit with rfl | hin
        · show (parseSUri u).isSome = true
          rw [hp]
          rfl
        · exact h4 it hin
    | album id =>
      have hst : (spotifly_add_next_to_queue s u fetch).st = s := by
        simp [spotifly_add_next_to_queue, h3s, hp]
      rw [hst]
      exact ⟨h1, h2, h3, h4⟩
    | playlist id =>
      have hst : (spotifly_add_next_to_queue s u fetch).st = s := by
        simp [spotifly_add_next_to_queue, h3s, hp]
      rw [hst]
      exact ⟨h1, h2, h3, h4⟩
    | artist id =>
      have hst : (spotifly_add_next_to_queue s u fetch).st = s := by
        simp [spotifly_add_next_to_queue, h3s, hp]
      rw [hst]
      exact ⟨h1, h2, h3, h4⟩

theorem sysInv_remove {s : St} (h : SysInv s) (i : Nat) :
    SysInv (spotifly_remove_from_queue s i).st := by
  obtain ⟨h1, h2, h3, h4⟩ := h
  unfold spotifly_remove_from_queue
  by_cases hc : i ≤ s.currentIndex ∨ s.queue.length ≤ i
  · rw [if_pos hc]
    exact ⟨h1, h2, h3, h4⟩
  · rw [if_neg hc]
    refine ⟨?_, h2, ?_, ?_⟩
    · have := specInv_remove ⟨h1.1, h1.2⟩ i
      unfold spotifly_remove_from_queue at this
      rw [if_neg hc] at this
      exact this
    · intro hne
      apply h3
      intro hq
      rw [hq] at hc
      simp at hc
    · intro it hit
      exact h4 it (List.mem_of_mem_eraseIdx hit)

theorem sysInv_move {s : St} (h : SysInv s) (i j : Nat) :
    SysInv (spotifly_move_queue_item s i j).st := by
  obtain ⟨h1, h2, h3, h4⟩ := h
  unfold spotifly_move_queue_item
  by_cases hc : i ≤ s.currentIndex ∨ j ≤ s.currentIndex ∨
      s.queue.length ≤ i ∨ s.queue.length ≤ j
  · rw [dif_pos hc]
    exact ⟨h1, h2, h3, h4⟩
  · rw [dif_neg hc]
    by_cases hij : i = j
    · rw [if_pos hij]
      exact ⟨h1, h2, h3, h4⟩
    · rw [if_neg hij]
      have h3i : i < s.queue.length := by omega
      have h4j : j < s.queue.length := by omega
      have hel : (s.queue.eraseIdx i).length = s.queue.length - 1 := by
        rw [List.length_eraseIdx]
        simp [h3i]
      have hjle : j ≤ (s.queue.eraseIdx i).length := by omega
      refine ⟨?_, h2, ?_, ?_⟩
      · have := specInv_move ⟨h1.1, h1.2⟩ i j
        unfold spotifly_move_queue_item at this
        rw [dif_neg hc, if_neg hij] at this
        exact this
      · intro _
        apply h3
        intro hq
        rw [hq] at h3i
        simp at h3i
      · intro it hit
        rw [List.mem_insertIdx hjle] at hit
        rcases hit with rfl | hin
        · exact h4 _ (List.get_mem s.queue i h3i)
        · exact h4 it (List.mem_of_mem_eraseIdx hin)

theorem sysInv_clear {s : St} (h : SysInv s) :
    SysInv (spotifly_clear_upcoming_queue s).st := by
  obtain ⟨h1, h2, h3, h4⟩ := h
  unfold spotifly_clear_upcoming_queue
  by_cases hlt : s.currentIndex + 1 < s.queue.length
  · rw [if_pos hlt]
    refine ⟨?_, h2, ?_, ?_⟩
    · have := specInv_clear ⟨h1.1, h1.2⟩
      unfold spotifly_clear_upcoming_queue at this
      rw [if_pos hlt] at this
      exact this
    · intro _
      apply h3
      intro hq
      rw [hq] at hlt
      simp at hlt
    · intro it hit
      exact h4 it (List.take_subset _ _ hit)
  · rw [if_neg hlt]
    exact ⟨h1, h2, h3, h4⟩

theorem sysInv_next {s : St} (h : SysInv s) : SysInv (spotifly_next s).st := by
  obtain ⟨hs1, hs2, hs3⟩ := next_shape s
  exact sysInv_transport h (specInv_next h.1) hs1 hs2 hs3

theorem sysInv_previous {s : St} (h : SysInv s) : SysInv (spotifly_previous s).st := by
  obtain ⟨hs1, hs2, hs3⟩ := previous_shape s
  exact sysInv_transport h (specInv_previous h.1) hs1 hs2 hs3

theorem sysInv_jump {s : St} (h : SysInv s) (i : Nat) :
    SysInv (spotifly_jump_to_index s i).st := by
  obtain ⟨hs1, hs2, hs3⟩ := jump_shape s i
  exact sysInv_transport h (specInv_jump h.1 i) hs1 hs2 hs3

theorem sysInv_event {s : St} (h : SysInv s) (e : PEvent) (now : Nat) :
    SysInv (onPlayerEvent s e now).1 := by
  obtain ⟨hs1, hs2, hs3⟩ := event_shape s e now
  exact sysInv_transport h (specInv_event h.1 e now) hs1 hs2 hs3

theorem sysInv_pause {s : St} (h : SysInv s) : SysInv (spotifly_pause s).st := by
  unfold spotifly_pause
  by_cases h2 : s.playerInit = true
  · rw [if_pos h2]
    exact sysInv_transport h (specInv_congr h.1 rfl rfl) rfl rfl rfl
  · rw [if_neg h2]
    exact h

theorem sysInv_resume {s : St} (h : SysInv s) : SysInv (spotifly_resume s).st := by
  unfold spotifly_resume
  by_cases h2 : s.playerInit = true
  · rw [if_pos h2]
    exact sysInv_transport h (specInv_congr h.1 rfl rfl) rfl rfl rfl
  · rw [if_neg h2]
    exact h

theorem sysInv_stop {s : St} (h : SysInv s) : SysInv (spotifly_stop s).st := by
  unfold spotifly_stop
  by_cases h2 : s.playerInit = true
  · rw [if_pos h2]
    exact sysInv_transport h (specInv_congr h.1 rfl rfl) rfl rfl rfl
  · rw [if_neg h2]
    exact h

theorem sysInv_seek {s : St} (h : SysInv s) (ms : Nat) :
    SysInv (spotifly_seek s ms).st := by
  unfold spotifly_seek
  by_cases h2 : s.playerInit = true
  · rw [if_pos h2]
    exact h
  · rw [if_neg h2]
    exact h

theorem sysInv_setVolume {s : St} (h : SysInv s) (v : Nat) :
    SysInv (spotifly_set_volume s v).st := by
  unfold spotifly_set_volume
  by_cases h2 : s.mixerInit = true
  · rw [if_pos h2]
    exact h
  · rw [if_neg h2]
    exact h

theorem sysInv_setBitrate {s : St} (h : SysInv s) (v : Nat) :
    SysInv (spotifly_set_bitrate s v) :=
  sysInv_transport h (specInv_congr h.1 rfl rfl) rfl rfl rfl

theorem sysInv_setGapless {s : St} (h : SysInv s) (b : Bool) :
    SysInv (spotifly_set_gapless s b) :=
  sysInv_transport h (specInv_congr h.1 rfl rfl) rfl rfl rfl

theorem reach_sysInv {s : St} (h : Reach s) : SysInv s := by
  induction h with
  | base => exact ⟨⟨fun _ => rfl, fun hne => absurd rfl hne⟩,
      fun hx => absurd hx (by decide), fun hne => absurd rfl hne,
      fun it hit => absurd hit (by simp [initSt])⟩
  | initPlayer _ o ih => exact sysInv_initPlayer ih o
  | playTracks _ uris fetch ih => exact sysInv_playTracks ih uris fetch
  | playTrack _ input env hw ih => exact sysInv_playTrack ih input env hw
  | pauseOp _ ih => exact sysInv_pause ih
  | resumeOp _ ih => exact sysInv_resume ih
  | stopOp _ ih => exact sysInv_stop ih
  | seekOp _ ms ih => exact sysInv_seek ih ms
  | nextOp _ ih => exact sysInv_next ih
  | previousOp _ ih => exact sysInv_previous ih
  | jumpOp _ i ih => exact sysInv_jump ih i
  | addOp _ u fetch ih => exact sysInv_add ih u fetch
  | addNextOp _ u fetch ih => exact sysInv_addNext ih u fetch
  | removeOp _ i ih => exact sysInv_remove ih i
  | moveOp _ i j ih => exact sysInv_move ih i j
  | clearOp _ ih => exact sysInv_clear ih
  | setVolumeOp _ v ih => exact sysInv_setVolume ih v
  | eventOp _ e now _ ih => exact sysInv_event ih e now
  | setBitrateOp _ v ih => exact sysInv_setBitrate ih v
  | setGaplessOp _ b ih => exact sysInv_setGapless ih b

theorem notReady_queue_empty {s : St} (h : SysInv s) (hp : s.playerInit = false) :
    s.queue = [] ∧ s.currentIndex = 0 := by
  obtain ⟨hspec, _, hqp, _⟩ := h
  have hq : s.queue = [] := by
    by_contra hne
    rw [hqp hne] at hp
    exact Bool.noConfusion hp
  exact ⟨hq, hspec.1 hq⟩

theorem next_fail_unchanged {s : St} (h : SysInv s)
    (herr : (spotifly_next s).err ≠ none) : (spotifly_next s).st = s := by
  obtain ⟨hspec, hsp, hqp, hval⟩ := h
  unfold spotifly_next at herr ⊢
  by_cases hlt : s.currentIndex + 1 < s.queue.length
  · exfalso
    have hqne : s.queue ≠ [] := by
      intro hq
      rw [hq] at hlt
      simp at hlt
    have hp : s.playerInit = true := hqp hqne
    have hsome := hval _ (List.get_mem s.queue (s.currentIndex + 1) hlt)
    rw [dif_pos hlt] at herr
    simp only [hp, not_true_eq_false, if_false, Bool.not_eq_true] at herr
    cases hq2 : parseSUri (s.queue.get ⟨s.currentIndex + 1, hlt⟩).uri with
    | none =>
      rw [hq2] at hsome
      simp at hsome
    | some u =>
      rw [hq2] at herr
      simp at herr
  · rw [dif_neg hlt]

theorem previous_fail_unchanged {s : St} (h : SysInv s)
    (herr : (spotifly_previous s).err ≠ none) : (spotifly_previous s).st = s := by
  obtain ⟨hspec, hsp, hqp, hval⟩ := h
  unfold spotifly_previous at herr ⊢
  by_cases h0 : s.currentIndex = 0
  · rw [if_pos h0]
  · exfalso
    have hqne : s.queue ≠ [] := fun hq => h0 (hspec.1 hq)
    have hp : s.playerInit = true := hqp hqne
    have hcl : s.currentIndex < s.queue.length := hspec.2 hqne
    have hlen : s.currentIndex - 1 < s.queue.length := by omega
    rw [if_neg h0, List.getElem?_eq_getElem hlen] at herr
    have hsome := hval _ (List.getElem_mem hlen)
    simp only [hp, not_true_eq_false, if_false, Bool.not_eq_true] at herr
    cases hq2 : parseSUri (s.queue[s.currentIndex - 1]).uri with
    | none =>
      rw [hq2] at hsome
      simp at hsome
    | some u =>
      rw [hq2] at herr
      simp at herr

theorem jump_fail_unchanged {s : St} (h : SysInv s) (i : Nat)
    (herr : (spotifly_jump_to_index s i).err ≠ none) :
    (spotifly_jump_to_index s i).st = s := by
  obtain ⟨hspec, hsp, hqp, hval⟩ := h
  unfold spotifly_jump_to_index at herr ⊢
  by_cases hlt : i < s.queue.length
  · exfalso
    have hqne : s.queue ≠ [] := by
      intro hq
      rw [hq] at hlt
      simp at hlt
    have hp : s.playerInit = true := hqp hqne
    have hsome := hval _ (List.get_mem s.queue i hlt)
    rw [dif_pos hlt] at herr
    simp only [hp, not_true_eq_false, if_false, Bool.not_eq_true] at herr
    cases hq2 : parseSUri (s.queue.get ⟨i, hlt⟩).uri with
    | none =>
      rw [hq2] at hsome
      simp at hsome
    | some u =>
      rw [hq2] at herr
      simp at herr
  · rw [dif_neg hlt]

/-- C5 counterexample: in the initial (not Ready) state, next() does fail,
but with the queue-boundary error ("already at last track"), not with
NotInitialized - the boundary check runs before the player check. -/
theorem c5_command_failure_counterexample :
    initSt.playerInit = false ∧
    (spotifly_next initSt).err = some .atBoundary ∧
    (spotifly_next initSt).err ≠ some .notInitialized := by
  refine ⟨rfl, ?_, ?_⟩ <;> decide

/-- C5 (amended): when the Lifecycle state is not Ready, every Command
Surface operation that needs the Session/Streaming Engine fails - pause,
resume, stop, seek, play, and playMany (on a non-empty list) with
`NotInitialized`, appendToQueue and insertNext with `NotInitialized` when
the session is absent, while next, previous and jumpToIndex fail through
their queue-boundary/index checks (in every reachable non-Ready state the
queue is empty, so those checks fire first) - and in each case the state is
completely unchanged.  Moreover no failing call leaves the Queue Store
partially mutated: in every reachable state a failing next, previous or
jumpToIndex leaves the whole state unchanged, and failing removeAt,
moveItem and playMany calls leave the state unchanged in every state. -/
theorem c5_command_failure_atomicity :
    (∀ s : St, s.playerInit = false →
      ((spotifly_pause s).err = some .notInitialized ∧ (spotifly_pause s).st = s) ∧
      ((spotifly_resume s).err = some .notInitialized ∧ (spotifly_resume s).st = s) ∧
      ((spotifly_stop s).err = some .notInitialized ∧ (spotifly_stop s).st = s) ∧
      (∀ ms, (spotifly_seek s ms).err = some .notInitialized ∧ (spotifly_seek s ms).st = s) ∧
      (∀ input env, (spotifly_play_track s input env).err = some .notInitialized ∧
        (spotifly_play_track s input env).st = s) ∧
      (∀ uris fetch, uris ≠ [] →
        (spotifly_play_tracks s uris fetch).err = some .notInitialized ∧
        (spotifly_play_tracks s uris fetch).st = s)) ∧
    (∀ s : St, s.sessionInit = false →
      (∀ u fetch, (spotifly_add_to_queue s u fetch).err = some .notInitialized ∧
        (spotifly_add_to_queue s u fetch).st = s) ∧
      (∀ u fetch, (spotifly_add_next_to_queue s u fetch).err = some .notInitialized ∧
        (spotifly_add_next_to_queue s u fetch).st = s)) ∧
    (∀ s : St, Reach s → s.playerInit = false →
      ((spotifly_next s).err ≠ none ∧ (spotifly_next s).st = s) ∧
      ((spotifly_previous s).err ≠ none ∧ (spotifly_previous s).st = s) ∧
      (∀ i, (spotifly_jump_to_index s i).err ≠ none ∧ (spotifly_jump_to_index s i).st = s)) ∧
    (∀ s : St, Reach s →
      ((spotifly_next s).err ≠ none → (spotifly_next s).st = s) ∧
      ((spotifly_previous s).err ≠ none → (spotifly_previous s).st = s) ∧
      (∀ i, (spotifly_jump_to_index s i).err ≠ none → (spotifly_jump_to_index s i).st = s)) ∧
    (∀ (s : St) i, (spotifly_remove_from_queue s i).err ≠ none →
      (spotifly_remove_from_queue s i).st = s) ∧
    (∀ (s : St) i j, (spotifly_move_queue_item s i j).err ≠ none →
      (spotifly_move_queue_item s i j).st = s) ∧
    (∀ (s : St) uris fetch, (spotifly_play_tracks s uris fetch).err ≠ none →
      (spotifly_play_tracks s uris fetch).st = s) := by
  refine ⟨?_, ?_, ?_, ?_, ?_, ?_, ?_⟩
  · intro s hp
    have hp2 : ¬ s.playerInit = true := by rw [hp]; exact Bool.noConfusion
    refine ⟨?_, ?_, ?_, ?_, ?_, ?_⟩
    · unfold spotifly_pause
      rw [if_neg hp2]
      exact ⟨rfl, rfl⟩
    · unfold spotifly_resume
      rw [if_neg hp2]
      exact ⟨rfl, rfl⟩
    · unfold spotifly_stop
      rw [if_neg hp2]
      exact ⟨rfl, rfl⟩
    · intro ms
      unfold spotifly_seek
      rw [if_neg hp2]
      exact ⟨rfl, rfl⟩
    · intro input env
      constructor <;> simp [spotifly_play_track, hp2]
    · intro uris fetch hne
      have hemp : ¬ uris.isEmpty = true := by
        cases uris with
        | nil => exact absurd rfl hne
        | cons a b => simp
      constructor <;> simp [spotifly_play_tracks, hemp, hp2]
  · intro s hsess
    have hs2 : ¬ s.sessionInit = true := by rw [hsess]; exact Bool.noConfusion
    constructor
    · intro u fetch
      constructor <;> simp [spotifly_add_to_queue, hs2]
    · intro u fetch
      constructor <;> simp [spotifly_add_next_to_queue, hs2]
  · intro s hr hp
    obtain ⟨hq0, hc0⟩ := notReady_queue_empty (reach_sysInv hr) hp
    refine ⟨?_, ?_, ?_⟩
    · have hnlt : ¬ (s.currentIndex + 1 < s.queue.length) := by
        rw [hq0, hc0]
        simp
      unfold spotifly_next
      rw [dif_neg hnlt]
      exact ⟨by simp, rfl⟩
    · unfold spotifly_previous
      rw [if_pos hc0]
      exact ⟨by simp, rfl⟩
    · intro i
      have hnlt : ¬ (i < s.queue.length) := by
        rw [hq0]
        simp
      unfold spotifly_jump_to_index
      rw [dif_neg hnlt]
      exact ⟨by simp, rfl⟩
  · intro s hr
    have h := reach_sysInv hr
    exact ⟨next_fail_unchanged h, previous_fail_unchanged h,
      fun i => jump_fail_unchanged h i⟩
  · intro s i herr
    unfold spotifly_remove_from_queue at herr ⊢
    by_cases hc : i ≤ s.currentIndex ∨ s.queue.length ≤ i
    · rw [if_pos hc]
    · rw [if_neg hc] at herr
      exact absurd rfl herr
  · intro s i j herr
    unfold spotifly_move_queue_item at herr ⊢
    by_cases hc : i ≤ s.currentIndex ∨ j ≤ s.currentIndex ∨
        s.queue.length ≤ i ∨ s.queue.length ≤ j
    · rw [dif_pos hc]
    · rw [dif_neg hc] at herr ⊢
      by_cases hij : i = j
      · rw [if_pos hij]
      · rw [if_neg hij] at herr
        exact absurd rfl herr
  · intro s uris fetch herr
    exact play_tracks_fail_unchanged herr

/-- Witness for C5: in the initial state, pause fails with NotInitialized
and changes nothing. -/
theorem c5_command_failure_atomicity_witness :
    (spotifly_pause initSt).err = some .notInitialized ∧ (spotifly_pause initSt).st = initSt :=
  (c5_command_failure_atomicity.1 initSt rfl).1

/-- C6: ingesting EndOfTrack resets the position tracker to 0 and stamps
the current time; if `current_index + 1 < length` the cursor advances by
exactly 1, a load-with-autoplay command is issued for the new current item,
and is_playing becomes true; otherwise the cursor stays at its last index,
is_playing remains false, no command is issued, and positionMs() reads 0 at
every later time. -/
theorem c6_end_of_track (s : St) (hr : Reach s) (now : Nat) :
    ((onPlayerEvent s .endOfTrack now).1.positionMs = 0 ∧
      (onPlayerEvent s .endOfTrack now).1.positionTs = now) ∧
    (s.currentIndex + 1 < s.queue.length →
      (onPlayerEvent s .endOfTrack now).1.currentIndex = s.currentIndex + 1 ∧
      (onPlayerEvent s .endOfTrack now).1.isPlaying = true ∧
      (∃ it u, s.queue[s.currentIndex + 1]? = some it ∧ parseSUri it.uri = some u ∧
        (onPlayerEvent s .endOfTrack now).2 = [.load u true 0])) ∧
    (¬ (s.currentIndex + 1 < s.queue.length) →
      (onPlayerEvent s .endOfTrack now).1.currentIndex = s.currentIndex ∧
      (onPlayerEvent s .endOfTrack now).1.isPlaying = false ∧
      (onPlayerEvent s .endOfTrack now).2 = [] ∧
      (∀ t, spotifly_get_position_ms (onPlayerEvent s .endOfTrack now).1 t = 0) ∧
      spotifly_is_playing (onPlayerEvent s .endOfTrack now).1 = false) := by
  obtain ⟨hspec, hsp, hqp, hval⟩ := reach_sysInv hr
  unfold onPlayerEvent
  by_cases hlt : s.currentIndex + 1 < s.queue.length
  · rw [dif_pos hlt]
    simp only [updatePosition]
    have hsome := hval _ (List.get_mem s.queue (s.currentIndex + 1) hlt)
    cases hq2 : parseSUri (s.queue.get ⟨s.currentIndex + 1, hlt⟩).uri with
    | none =>
      rw [hq2] at hsome
      simp at hsome
    | some u =>
      refine ⟨⟨by trivial, by trivial⟩, ?_, ?_⟩
      · intro _
        refine ⟨by trivial, by trivial, s.queue.get ⟨s.currentIndex + 1, hlt⟩, u, ?_, hq2,
          by trivial⟩
        rw [List.getElem?_eq_getElem hlt]
        rfl
      · intro hn
        exact absurd hlt hn
  · rw [dif_neg hlt]
    simp only [updatePosition]
    refine ⟨⟨by trivial, by trivial⟩, ?_, ?_⟩
    · intro hn
      exact absurd hn hlt
    · intro _
      refine ⟨by trivial, by trivial, by trivial, ?_, by trivial⟩
      intro t
      by_cases hnow : now = 0 <;> simp [spotifly_get_position_ms, hnow]

/-- Witness for C6: end of track on a reachable two-track state advances
the cursor and resumes playing. -/
theorem c6_end_of_track_witness :
    (onPlayerEvent twoTrackSt .endOfTrack 5).1.currentIndex = twoTrackSt.currentIndex + 1 ∧
    (onPlayerEvent twoTrackSt .endOfTrack 5).1.isPlaying = true := by
  have hr : Reach twoTrackSt :=
    Reach.playTracks (Reach.initPlayer Reach.base (.ok true))
      ["spotify:track:aa", "spotify:track:bb"] demoFetch
  have h := (c6_end_of_track twoTrackSt hr 5).2.1 (by decide)
  exact ⟨h.1, h.2.1⟩

end Spotifly
